import Mathlib

/-!
Verification of the proc-macro-workshop derive generators
(builder, simple builder, custom debug, seq) against their
natural-language specification, via a shallow embedding of the
relevant portions of `syn` syntax trees and of the token templates
the generators emit.

The generators inspect a declared type's structure at most two levels
deep: the outer path segment of a field's type, and one level of
angle-bracketed generic arguments.  Anything deeper is only ever carried
verbatim into the output (interpolated with `#ty`-style quoting), never
inspected.  The embedding therefore models the inspected two levels
structurally and represents every deeper or otherwise-uninspected
fragment as an uninterpreted token string (`QTokens`), which preserves
equality of syntax trees (token rendering is injective on the fragments
the code compares).
-/

set_option autoImplicit false

namespace Syn

/-- An uninterpreted token fragment: syntax the generators carry
verbatim (via quoting) but never inspect. -/
structure QTokens where
  raw : String
deriving DecidableEq, Repr

/-- Model of `syn::Lit`: the literal kinds the code inspects. -/
inductive Lit where
  | str (s : String)
  | int (n : Int)
  | otherLit (toks : QTokens)
deriving DecidableEq, Repr

/-- A path segment of a type appearing one level down (inside a generic
argument): its identifier plus its own arguments, which the generators
never inspect. -/
structure ISeg where
  ident : String
  arguments : QTokens
deriving DecidableEq, Repr

/-- A type appearing one level down, as a generic argument: a path type
(non-empty segment list, split head/rest since the code indexes
`segments[0]`) or any other type shape. -/
inductive InnerTy where
  | path (seg0 : ISeg) (rest : List ISeg)
  | otherTy (toks : QTokens)
deriving DecidableEq, Repr

/-- Model of `syn::GenericArgument`: a type argument or anything else
(lifetime, const, binding, ...). -/
inductive GenArg where
  | tyArg (t : InnerTy)
  | otherArg (toks : QTokens)
deriving DecidableEq, Repr

/-- Model of `syn::PathArguments`.  Angle-bracketed argument lists are
modelled non-empty (head plus rest) because the code indexes `args[0]`;
an empty `<>` list is syntactically possible but makes that indexing
panic, which the `paren`-like uninspected case also covers. -/
inductive Args where
  | noArgs
  | angle (arg0 : GenArg) (rest : List GenArg)
  | paren (toks : QTokens)
deriving DecidableEq, Repr

/-- A path segment of a field's declared type. -/
structure Seg where
  ident : String
  arguments : Args
deriving DecidableEq, Repr

/-- Model of `syn::Type` for a field's declared type: a path type
(non-empty segment list split head/rest, the code indexes
`segments[0]`) or any other shape (reference, tuple, ...). -/
inductive Ty where
  | path (seg0 : Seg) (rest : List Seg)
  | otherTy (toks : QTokens)
deriving DecidableEq, Repr

/-- Model of `syn::NestedMeta`: one element of a `Meta::List`.  A nested
`Meta::List` is never inspected past its head constructor, so its
contents are uninterpreted. -/
inductive NestedMeta where
  | metaWord (ident : String)
  | metaList (toks : QTokens)
  | metaNameValue (ident : String) (lit : Lit)
  | lit (l : Lit)
deriving DecidableEq, Repr

/-- Model of `syn::Meta` as returned by `Attribute::parse_meta`.
`list` carries a non-empty nested list (the code indexes `nested[0]`). -/
inductive Meta where
  | word (ident : String)
  | list (nested0 : NestedMeta) (rest : List NestedMeta)
  | nameValue (ident : String) (lit : Lit)
deriving DecidableEq, Repr

/-- Model of `syn::Attribute`: the attribute's path (head segment ident
plus remaining segment idents) and the result of `parse_meta()`
(`none` models `Err(_)`). -/
structure Attr where
  path0 : String
  pathRest : List String
  meta : Option Meta
deriving DecidableEq, Repr

/-- Model of `Path::is_ident(s)`: a single-segment path equal to `s`. -/
def Attr.isIdent (a : Attr) (s : String) : Bool :=
  a.path0 = s && a.pathRest = []

end Syn

namespace BuilderLib

open Syn

/-- Panics a generator can raise while expanding
(`unimplemented!`, `unreachable!`, `Option::unwrap` on `None`). -/
inductive PanicE where
  | unimplementedE
  | unreachableE
  | unwrapNone
deriving DecidableEq, Repr

/-- A named struct field as seen by `builder/src/lib.rs`
(`syn::FieldsNamed` guarantees the identifier is present). -/
structure Field where
  ident : String
  ty : Syn.Ty
  attrs : List Syn.Attr
deriving DecidableEq, Repr

/-- The per-field test of `fetch_optional_fields`: `Type::Path` whose
`segments[0].ident == "Option"`; any other type shape hits
`unimplemented!()`. -/
def isOptionField (f : Field) : Except PanicE Bool :=
  match f.ty with
  | .path seg0 _ => pure (seg0.ident == "Option")
  | .otherTy _ => throw .unimplementedE

/-- Model of `fetch_optional_fields`: filter the named fields, keeping those whose
declared type's outer identifier is `Option`. -/
def fetch_optional_fields : List Field → Except PanicE (List Field)
  | [] => pure []
  | f :: rest => do
      let b ← isOptionField f
      let r ← fetch_optional_fields rest
      pure (if b then f :: r else r)

/-- The first filter of `fetch_builder_fields`: the field has at least
one attribute and some attribute whose path head is `builder`. -/
def hasBuilderAttr (f : Field) : Bool :=
  f.attrs.length > 0 && f.attrs.any (fun a => a.path0 == "builder")

/-- The closure inside `fetch_builder_fields`' `.all(..)`: an attribute
whose meta parses must be `Meta::List` with `nested[0]` a
`NestedMeta::Meta(Meta::NameValue(..))` (anything else is
`unreachable!()`), and its name must be `each`; an attribute whose meta
fails to parse is accepted. -/
def builderAttrOk (a : Syn.Attr) : Except PanicE Bool :=
  match a.meta with
  | some m =>
      match m with
      | .list n0 _ =>
          match n0 with
          | .metaNameValue i _ => pure (i == "each")
          | _ => throw .unreachableE
      | _ => throw .unreachableE
  | none => pure true

/-- Model of `Iterator::all` over a field's attributes, short-circuiting on the
first failing attribute as Rust does. -/
def attrsAllOk : List Syn.Attr → Except PanicE Bool
  | [] => pure true
  | a :: rest => do
      let b ← builderAttrOk a
      if b then attrsAllOk rest else pure false

/-- The second filter of `fetch_builder_fields`, keeping the fields all
of whose attributes pass `builderAttrOk`. -/
def filterAttrsOk : List Field → Except PanicE (List Field)
  | [] => pure []
  | f :: rest => do
      let b ← attrsAllOk f.attrs
      let r ← filterAttrsOk rest
      pure (if b then f :: r else r)

/-- Model of `fetch_builder_fields`: collect the `builder`-annotated fields, then
re-filter them by attribute well-formedness; if the counts disagree the
function signals `None` (the caller emits a `compile_error!`). -/
def fetch_builder_fields (fields : List Field) : Except PanicE (Option (List Field)) := do
  let bf := fields.filter hasBuilderAttr
  let filtered ← filterAttrsOk bf
  if bf.length ≠ filtered.length then pure none else pure (some bf)

/-- Model of `get_inner_type`: the first angle-bracketed type argument of the
declared type's head segment; every other shape is `unreachable!()`. -/
def get_inner_type (f : Field) : Except PanicE Syn.InnerTy :=
  match f.ty with
  | .path seg0 _ =>
      match seg0.arguments with
      | .angle a0 _ =>
          match a0 with
          | .tyArg t => pure t
          | .otherArg _ => throw .unreachableE
      | _ => throw .unreachableE
  | .otherTy _ => throw .unreachableE

/-- Model of `get_attr_ident`: for an attributed field, the string payload of the
first parseable attribute meta, which must be
`Meta::List(nested[0] = NameValue(_, Lit::Str(s)))`; for an
unattributed field, the field's own identifier. -/
def get_attr_ident (f : Field) : Except PanicE String :=
  if f.attrs.length > 0 then
    match (f.attrs.filterMap (fun a => a.meta)).head? with
    | some (Syn.Meta.list n0 _) =>
        match n0 with
        | .metaNameValue _ l =>
            match l with
            | .str s => pure s
            | _ => throw .unreachableE
        | _ => throw .unreachableE
    | _ => throw .unreachableE
  else pure f.ident

/-- The derived per-field category.  The code has no explicit
classification value; this is the `if optional_fields.contains(f) /
else if builder_fields.contains(f) / else` dispatch shared by
`expand_builder_setters` and `expand_builder_build_fn`. -/
inductive FieldClassification where
  | requiredC
  | optionalC
  | repeatedC
deriving DecidableEq, Repr

/-- The shared dispatch order of `expand_builder_setters` and
`expand_builder_build_fn`: membership in `optional_fields` is tested
before membership in `builder_fields`. -/
def classify (optF bldF : List Field) (f : Field) : FieldClassification :=
  if optF.contains f then .optionalC
  else if bldF.contains f then .repeatedC
  else .requiredC

/-- Body of a generated setter: `self.#field = Some(#arg)` or
`self.#field.push(#arg)`. -/
inductive SetterBody where
  | setSome
  | push
deriving DecidableEq, Repr

/-- Argument type of a generated setter: the extracted inner type or the
field's declared type, carried verbatim. -/
inductive SetterArgTy where
  | inner (t : Syn.InnerTy)
  | declared (t : Syn.Ty)
deriving DecidableEq, Repr

/-- One generated setter method: its method name, the struct field it
assigns into, its argument type and its body shape. -/
structure Setter where
  name : String
  target : String
  argTy : SetterArgTy
  body : SetterBody
deriving DecidableEq, Repr

/-- The setter `expand_builder_setters` emits for one field: the
`Optional` branch sets `Some`, the annotated branch pushes under the
attribute-supplied name, the required branch sets `Some` under the
field's own name. -/
def setterFor (optF bldF : List Field) (f : Field) : Except PanicE Setter :=
  if optF.contains f then do
    let ty ← get_inner_type f
    pure ⟨f.ident, f.ident, .inner ty, .setSome⟩
  else if bldF.contains f then do
    let attrIdent ← get_attr_ident f
    let ty ← get_inner_type f
    pure ⟨attrIdent, f.ident, .inner ty, .push⟩
  else
    pure ⟨f.ident, f.ident, .declared f.ty, .setSome⟩

/-- Map a possibly-panicking per-field expansion over the field list in
order, as Rust's iterator `map` + interpolation drives it. -/
def mapPanic {β : Type} (g : Field → Except PanicE β) : List Field → Except PanicE (List β)
  | [] => pure []
  | f :: rest => do
      let s ← g f
      let ss ← mapPanic g rest
      pure (s :: ss)

/-- Model of `expand_builder_setters`: one setter per field, in declaration
order. -/
def expand_builder_setters (fields optF bldF : List Field) : Except PanicE (List Setter) :=
  mapPanic (setterFor optF bldF) fields

/-- Storage type of one satellite-builder field: the declared type
verbatim, or the declared type wrapped in `::std::option::Option<_>`. -/
inductive StoredTy where
  | raw (t : Syn.Ty)
  | optWrapped (t : Syn.Ty)
deriving DecidableEq, Repr

/-- One field declaration of the generated satellite builder type. -/
structure FieldDecl where
  name : String
  stored : StoredTy
deriving DecidableEq, Repr

/-- Model of `expand_builder_fields`: optional and annotated fields keep their
declared type, every other field is wrapped in `Option`. -/
def expand_builder_fields (fields optF bldF : List Field) : List FieldDecl :=
  fields.map fun f =>
    if optF.contains f || bldF.contains f then ⟨f.ident, .raw f.ty⟩
    else ⟨f.ident, .optWrapped f.ty⟩

/-- One initializer entry of the generated `builder()` constructor:
`#ident: <#ty>::new()` for annotated fields, `#ident: None` otherwise. -/
inductive InitEntry where
  | tyNew (t : Syn.Ty)
  | noneInit
deriving DecidableEq, Repr

/-- A named initializer entry. -/
structure InitDecl where
  name : String
  entry : InitEntry
deriving DecidableEq, Repr

/-- Model of `expand_builder_initializer`: annotated fields start from
`<ty>::new()`, all others from `None`.  Note this branch tests
`builder_fields` membership only, unlike the setter/build dispatch. -/
def expand_builder_initializer (fields bldF : List Field) : List InitDecl :=
  fields.map fun f =>
    if bldF.contains f then ⟨f.ident, .tyNew f.ty⟩ else ⟨f.ident, .noneInit⟩

/-- One emitted `is_none` guard of the generated `build` method,
carrying the formatted error message. -/
structure NoneCheck where
  field : String
  msg : String
deriving DecidableEq, Repr

/-- One field assignment of the generated `build` method:
`self.f.take()`, `self.f.drain(..).collect()`, or
`self.f.take().unwrap()`. -/
inductive Assign where
  | takeA (field : String)
  | drainA (field : String)
  | takeUnwrapA (field : String)
deriving DecidableEq, Repr

/-- The generated `build` method: its guards (one entry per field,
`none` for the empty fragment emitted on non-required fields) and its
field assignments. -/
structure BuildFn where
  checks : List (Option NoneCheck)
  assigns : List Assign
deriving DecidableEq, Repr

/-- The guard `expand_builder_build_fn` emits for one field: for a field
in neither `optional_fields` nor `builder_fields`, an `is_none` test
returning `Err(format!("value is not set: {}", ident))`; for the others,
an empty fragment. -/
def checkFor (optF bldF : List Field) (f : Field) : Option NoneCheck :=
  if ¬ optF.contains f ∧ ¬ bldF.contains f then
    some ⟨f.ident, "value is not set: " ++ f.ident⟩
  else none

/-- The assignment `expand_builder_build_fn` emits for one field:
`take()` for optional fields, `drain(..).collect()` for annotated
fields, `take().unwrap()` otherwise. -/
def assignFor (optF bldF : List Field) (f : Field) : Assign :=
  if optF.contains f then .takeA f.ident
  else if bldF.contains f then .drainA f.ident
  else .takeUnwrapA f.ident

/-- Model of `expand_builder_build_fn`: an `is_none` guard returning
`Err("value is not set: <name>")` for each required field, then one
assignment per field (take / drain / take-unwrap by classification). -/
def expand_builder_build_fn (fields optF bldF : List Field) : BuildFn :=
  { checks := fields.map (checkFor optF bldF)
    assigns := fields.map (assignFor optF bldF) }

end BuilderLib

namespace BuilderLib

/-- The field list shape of a struct declaration
(`syn::Fields`): named, positional, or unit. -/
inductive FieldsShape where
  | named (fields : List Field)
  | unnamedF
  | unitF
deriving DecidableEq, Repr

/-- The data shape of a `DeriveInput`. -/
inductive Data where
  | structD (fields : FieldsShape)
  | enumD
  | unionD
deriving DecidableEq, Repr

/-- Model of `syn::DeriveInput` for the annotation-aware builder. -/
structure DeriveInput where
  ident : String
  data : Data
deriving DecidableEq, Repr

/-- The output of the annotation-aware builder derive: either a
`compile_error!` token sequence, or the generated skeleton
(`impl X { fn builder() }`, the satellite struct, the setters and the
`build` method).  The skeleton tokens are emitted even when its pieces
are empty (the non-named-fields arm), so `generated` is never an empty
fragment. -/
inductive DeriveOut where
  | compileErr (msg : String)
  | generated (init : List InitDecl) (decls : List FieldDecl)
      (setters : List Setter) (buildFn : Option BuildFn)
deriving DecidableEq, Repr

/-- Model of `derive` of `builder/src/lib.rs`: named-field structs get the full
expansion (with an early `compile_error!` return when
`fetch_builder_fields` signals `None`); other struct shapes get the
skeleton with empty pieces; non-structs hit `unimplemented!()`. -/
def derive (input : DeriveInput) : Except PanicE DeriveOut :=
  match input.data with
  | .structD (.named fields) => do
      let optF ← fetch_optional_fields fields
      let bldFOpt ← fetch_builder_fields fields
      match bldFOpt with
      | none => pure (.compileErr "missing or unrecognized attribute in `builder`")
      | some bldF => do
          let init := expand_builder_initializer fields bldF
          let decls := expand_builder_fields fields optF bldF
          let setters ← expand_builder_setters fields optF bldF
          let buildFn := expand_builder_build_fn fields optF bldF
          pure (.generated init decls setters (some buildFn))
  | .structD _ => pure (.generated [] [] [] none)
  | .enumD => throw .unimplementedE
  | .unionD => throw .unimplementedE

/-! Runtime semantics of the generated builder

The generated code is ordinary Rust acting on the satellite struct's
fields.  A builder state maps each field name to its storage slot:
`Option`-typed storage or collection storage, with element values drawn
from an arbitrary type `α`. -/

/-- A storage slot of the satellite builder at runtime. -/
inductive Slot (α : Type) where
  | optSlot (v : Option α)
  | vecSlot (vs : List α)
deriving DecidableEq, Repr

/-- A builder state: the satellite struct's fields in order. -/
abbrev BState (α : Type) := List (String × Slot α)

/-- Read a field's slot. -/
def lookupSlot {α : Type} (st : BState α) (n : String) : Option (Slot α) :=
  (st.find? (fun p => p.1 == n)).map (fun p => p.2)

/-- Overwrite a field's slot (a no-op when the field is absent, which
well-formed states rule out). -/
def setSlot {α : Type} : BState α → String → Slot α → BState α
  | [], _, _ => []
  | (m, s) :: rest, n, v =>
      if m == n then (m, v) :: rest else (m, s) :: setSlot rest n v

/-- Run one generated setter on one argument: `self.f = Some(arg)` or
`self.f.push(arg)`.  A push against non-collection storage has no
semantics (such generated code would not compile) and leaves the state
unchanged. -/
def applySetter {α : Type} (s : Setter) (arg : α) (st : BState α) : BState α :=
  match s.body with
  | .setSome => setSlot st s.target (.optSlot (some arg))
  | .push =>
      match lookupSlot st s.target with
      | some (.vecSlot vs) => setSlot st s.target (.vecSlot (vs ++ [arg]))
      | _ => st

/-- A field value of the constructed original struct. -/
inductive FVal (α : Type) where
  | singleV (v : α)
  | optionalV (v : Option α)
  | collectedV (vs : List α)
deriving DecidableEq, Repr

/-- Run the generated `is_none` guards in order; the first firing guard
yields its error message. -/
def runChecks {α : Type} : List (Option NoneCheck) → BState α → Option String
  | [], _ => none
  | none :: rest, st => runChecks rest st
  | some c :: rest, st =>
      match lookupSlot st c.field with
      | some (.optSlot none) => some c.msg
      | _ => runChecks rest st

/-- Run one generated field assignment: `take()`, `drain(..).collect()`
or `take().unwrap()`; the last panics when the slot is empty.
Assignments against absent or wrongly-shaped slots (generated code that
would not compile) keep the state unchanged. -/
def runAssign {α : Type} (a : Assign) (st : BState α) :
    Except PanicE (String × FVal α) × BState α :=
  match a with
  | .takeA f =>
      match lookupSlot st f with
      | some (.optSlot o) => (.ok (f, .optionalV o), setSlot st f (.optSlot none))
      | _ => (.ok (f, .optionalV none), st)
  | .drainA f =>
      match lookupSlot st f with
      | some (.vecSlot vs) => (.ok (f, .collectedV vs), setSlot st f (.vecSlot []))
      | _ => (.ok (f, .collectedV []), st)
  | .takeUnwrapA f =>
      match lookupSlot st f with
      | some (.optSlot (some v)) => (.ok (f, .singleV v), setSlot st f (.optSlot none))
      | _ => (.error .unwrapNone, st)

/-- Run the generated assignments left to right, threading the mutated
builder state. -/
def runAssigns {α : Type} : List Assign → BState α →
    Except PanicE (List (String × FVal α)) × BState α
  | [], st => (.ok [], st)
  | a :: rest, st =>
      match runAssign a st with
      | (.ok kv, st1) =>
          match runAssigns rest st1 with
          | (.ok kvs, st2) => (.ok (kv :: kvs), st2)
          | (.error e, st2) => (.error e, st2)
      | (.error e, st1) => (.error e, st1)

/-- How a call of the generated `build` can fail: a reported
`Err(Box::from(format!(..)))`, or a panic. -/
inductive BuildErr where
  | errMsg (msg : String)
  | panicked (e : PanicE)
deriving DecidableEq, Repr

/-- Run the generated `build` method: all guards first (an early
`return Err` leaves the state untouched), then the assignments
constructing the original struct. -/
def runBuild {α : Type} (b : BuildFn) (st : BState α) :
    Except BuildErr (List (String × FVal α)) × BState α :=
  match runChecks b.checks st with
  | some msg => (.error (.errMsg msg), st)
  | none =>
      match runAssigns b.assigns st with
      | (.ok kvs, st1) => (.ok kvs, st1)
      | (.error e, st1) => (.error (.panicked e), st1)

/-- Runtime meaning of one generated initializer entry: `None` for the
`Option`-stored fields; `<ty>::new()` yields the empty collection when
the declared type is a `Vec` (the only constructor the generated code
exercises) and has no semantics otherwise. -/
def InitEntry.slot {α : Type} : InitEntry → Option (Slot α)
  | .noneInit => some (.optSlot none)
  | .tyNew (.path seg0 _) =>
      if seg0.ident = "Vec" then some (.vecSlot []) else none
  | .tyNew _ => none

/-- The builder state produced by the generated `builder()` constructor,
when every initializer entry has semantics. -/
def initState {α : Type} : List InitDecl → Option (BState α)
  | [] => some []
  | d :: rest => do
      let s ← InitEntry.slot d.entry
      let st ← initState rest
      pure ((d.name, s) :: st)

end BuilderLib

namespace BuilderLib

/-- Boolean form of the `fetch_optional_fields` test, total on the
non-panicking (path-typed) fields. -/
def isOptB (f : Field) : Bool :=
  match f.ty with
  | .path seg0 _ => seg0.ident == "Option"
  | .otherTy _ => false

end BuilderLib

namespace BuilderLib

/-- Boolean test of the generated guard firing: the field is in neither
membership list and its slot holds `None`. -/
def unsetRequiredB {α : Type} [DecidableEq α] (optF bldF : List Field)
    (st : BState α) (f : Field) : Bool :=
  (classify optF bldF f == .requiredC) &&
    (lookupSlot st f.ident == some (.optSlot none))

end BuilderLib

namespace BuilderLib

/-- The slot every field is left with after a successful `build`:
drained empty for annotated fields, taken to `None` otherwise. -/
def emptiedSlot {α : Type} (optF bldF : List Field) (f : Field) : Slot α :=
  match classify optF bldF f with
  | .repeatedC => .vecSlot []
  | _ => .optSlot none

/-- The value the generated `build` commits for one field, read from the
builder state: the taken option, the drained collection, or the
unwrapped required value. -/
def assignedVal {α : Type} (optF bldF : List Field) (st : BState α)
    (f : Field) (v : FVal α) : Prop :=
  match classify optF bldF f with
  | .optionalC => ∃ o, lookupSlot st f.ident = some (.optSlot o) ∧ v = .optionalV o
  | .repeatedC => ∃ vs, lookupSlot st f.ident = some (.vecSlot vs) ∧ v = .collectedV vs
  | .requiredC => ∃ x, lookupSlot st f.ident = some (.optSlot (some x)) ∧ v = .singleV x

end BuilderLib

namespace BuilderSimple

/-- A struct field as seen by `builder/src/builder.rs`, which iterates
`data.fields` generically: the identifier may be absent (tuple
structs). -/
structure SField where
  ident : Option String
  ty : Syn.Ty
deriving DecidableEq, Repr

/-- The shared skeleton of the `handle_option!` macro: a named,
path-typed field is split on whether `segments[0].ident == "Option"`;
the `Option` case requires angle-bracketed arguments whose first entry
is a path type and hands the inner path to `stmt1`; the other case
hands the full segment list to `stmt2`; everything else yields `None`
(the field is silently skipped by `filter_map`). -/
def handleOption {β : Type} (stmt1 : Syn.ISeg → List Syn.ISeg → String → Option β)
    (stmt2 : String → Syn.Seg → List Syn.Seg → Option β) (field : SField) : Option β :=
  match field.ident, field.ty with
  | some ident, .path seg0 rest =>
      if seg0.ident == "Option" then
        match seg0.arguments with
        | .angle a0 _ =>
            match a0 with
            | .tyArg (.path iseg0 irest) => stmt1 iseg0 irest ident
            | _ => none
        | _ => none
      else stmt2 ident seg0 rest
  | _, _ => none

/-- Argument type of a simple-variant setter: the inner path's first
segment identifier (the `Option` case) or the field's full declared
path. -/
inductive SArgTy where
  | innerIdent (s : String)
  | fullPath (seg0 : Syn.Seg) (rest : List Syn.Seg)
deriving DecidableEq, Repr

/-- One generated simple-variant setter
(`self.#ident = Some(#ident.clone())`). -/
structure SSetter where
  name : String
  argTy : SArgTy
deriving DecidableEq, Repr

/-- Model of `extract_setter`: one clone-and-set setter per handled field. -/
def extract_setter (fields : List SField) : List SSetter :=
  fields.filterMap (handleOption
    (fun iseg0 _ ident => some ⟨ident, .innerIdent iseg0.ident⟩)
    (fun ident seg0 rest => some ⟨ident, .fullPath seg0 rest⟩))

/-- Storage of one simple-variant builder field: always
`Option<...>` — of the inner path's first segment identifier for
`Option`-typed fields, of the full declared path otherwise. -/
inductive SStored where
  | optOfIdent (s : String)
  | optOfPath (seg0 : Syn.Seg) (rest : List Syn.Seg)
deriving DecidableEq, Repr

/-- One field declaration of the simple-variant builder struct. -/
structure SFieldDecl where
  name : String
  stored : SStored
deriving DecidableEq, Repr

/-- Model of `extract_fields`: one `Option`-wrapped storage entry per handled
field. -/
def extract_fields (fields : List SField) : List SFieldDecl :=
  fields.filterMap (handleOption
    (fun iseg0 _ ident => some ⟨ident, .optOfIdent iseg0.ident⟩)
    (fun ident seg0 rest => some ⟨ident, .optOfPath seg0 rest⟩))

/-- One field assignment of the simple-variant `build`:
`self.f.clone()` for `Option`-typed fields, `self.f.clone().unwrap()`
otherwise. -/
inductive SAssign where
  | cloneOpt (field : String)
  | cloneUnwrap (field : String)
deriving DecidableEq, Repr

/-- Model of `extract_builder_fields`: the `build` assignments. -/
def extract_builder_fields (fields : List SField) : List SAssign :=
  fields.filterMap (handleOption
    (fun _ _ ident => some (.cloneOpt ident))
    (fun ident _ _ => some (.cloneUnwrap ident)))

/-- The data shape of a simple-variant `DeriveInput`; the struct case
carries its fields uniformly (named, positional or none). -/
inductive SData where
  | structD (fields : List SField)
  | enumD
  | unionD
deriving DecidableEq, Repr

/-- Model of `syn::DeriveInput` for the simple variant. -/
structure SDeriveInput where
  ident : String
  data : SData
deriving DecidableEq, Repr

/-- The simple variant's output: `TokenStream::new()` (an empty
fragment) for non-structs, else the generated skeleton (builder struct,
`build` method, setters) — emitted even when a struct's fields are
positional or absent. -/
inductive SimpleOut where
  | emptyFrag
  | skeleton (decls : List SFieldDecl) (assigns : List SAssign) (setters : List SSetter)
deriving DecidableEq, Repr

/-- Model of `build` of `builder/src/builder.rs`: structs go through
`impl_struct` (always `Ok`), everything else returns the empty token
stream. -/
def build (input : SDeriveInput) : SimpleOut :=
  match input.data with
  | .structD fields =>
      .skeleton (extract_fields fields) (extract_builder_fields fields)
        (extract_setter fields)
  | .enumD => .emptyFrag
  | .unionD => .emptyFrag

/-- Runtime state of the simple-variant builder: every field is
`Option`-stored; `default()` starts all fields at `None`. -/
abbrev SBState (α : Type) := List (String × Option α)

/-- Read a field's stored option (`None` when absent, which matching
generated code rules out). -/
def lookupS {α : Type} (st : SBState α) (n : String) : Option α :=
  match st.find? (fun p => p.1 == n) with
  | some p => p.2
  | none => none

/-- Run one simple-variant assignment: `clone()` commits the stored
option; `clone().unwrap()` commits the value or panics on `None`. -/
def runSAssign {α : Type} (a : SAssign) (st : SBState α) :
    Except BuilderLib.PanicE (String × BuilderLib.FVal α) :=
  match a with
  | .cloneOpt f => .ok (f, .optionalV (lookupS st f))
  | .cloneUnwrap f =>
      match lookupS st f with
      | some v => .ok (f, .singleV v)
      | none => .error .unwrapNone

/-- Run the simple-variant `build` body: evaluate the struct-literal
fields in order; the state is only read (everything is cloned), and a
panic aborts. -/
def runSBuild {α : Type} : List SAssign → SBState α →
    Except BuilderLib.PanicE (List (String × BuilderLib.FVal α))
  | [], _ => .ok []
  | a :: rest, st => do
      let kv ← runSAssign a st
      let kvs ← runSBuild rest st
      pure (kv :: kvs)

/-- The all-`None` state `#builder_name::default()` produces. -/
def defaultState {α : Type} (decls : List SFieldDecl) : SBState α :=
  decls.map (fun d => (d.name, none))

end BuilderSimple

namespace DebugLib

/-- A named struct field as seen by `debug/src/lib.rs`. -/
structure DField where
  ident : String
  ty : Syn.Ty
  attrs : List Syn.Attr
deriving DecidableEq, Repr

/-- Diagnostic token sequences `collect_fields_format` can return: the
synthesized name-value-format error, or an attribute parse error
rendered with `to_compile_error()`. -/
inductive DiagTokens where
  | nameValueFormat
  | parseErr
deriving DecidableEq, Repr

/-- Model of `collect_fields_format`: for each field carrying a `debug`
attribute, the attribute must parse as `Meta::NameValue`, yielding
`(ident, lit)`; any other parsed shape or a parse failure is a
compile-time diagnostic.  The pairs are collected in field order (the
`HashMap` keyed by the unique field identifiers). -/
def collect_fields_format : List DField → Except DiagTokens (List (String × Syn.Lit))
  | [] => .ok []
  | f :: rest =>
      match f.attrs.find? (fun a => a.isIdent "debug") with
      | none => collect_fields_format rest
      | some attr =>
          match attr.meta with
          | some (.nameValue _ lit) => do
              let m ← collect_fields_format rest
              pure ((f.ident, lit) :: m)
          | some _ => .error .nameValueFormat
          | none => .error .parseErr

/-- One formatting call of the generated `fmt` body:
`.field(name, &self.name)` or
`.field(name, &format_args!(lit, &self.name))`. -/
inductive DebugEntry where
  | plainE (name : String)
  | formattedE (name : String) (fmt : Syn.Lit)
deriving DecidableEq, Repr

/-- Model of `format_debug_fields`: one formatting call per field in declaration
order, through the format string when the attribute map has one for
the field. -/
def format_debug_fields (fields : List DField) (attrMap : List (String × Syn.Lit)) :
    List DebugEntry :=
  fields.map fun f =>
    match attrMap.find? (fun p => p.1 == f.ident) with
    | some p => .formattedE f.ident p.2
    | none => .plainE f.ident

/-- Model of `collect_phantom_data`: the first-segment identifiers of the
angle-bracketed path arguments of `PhantomData<..>`-headed field
types (a `HashSet`, used only through membership). -/
def collect_phantom_data (fields : List DField) : List String :=
  fields.filterMap fun f =>
    match f.ty with
    | .path seg0 _ =>
        if seg0.ident == "PhantomData" then
          match seg0.arguments with
          | .angle a0 _ =>
              match a0 with
              | .tyArg (.path iseg0 _) => some iseg0.ident
              | _ => none
          | _ => none
        else none
    | .otherTy _ => none

/-- Model of `HashMap::insert`: one entry per key, a later insert replacing the
earlier value. -/
def insertA {β : Type} : List (String × β) → String → β → List (String × β)
  | [], k, v => [(k, v)]
  | (k', v') :: rest, k, v =>
      if k' == k then (k', v) :: rest else (k', v') :: insertA rest k v

/-- The per-field entry of `collect_associated_types`: a field whose
type's first angle-bracketed argument is a path of at least two
segments contributes (first segment ident, whole inner path). -/
def assocEntry (f : DField) : Option (String × Syn.InnerTy) :=
  match f.ty with
  | .path seg0 _ =>
      match seg0.arguments with
      | .angle a0 _ =>
          match a0 with
          | .tyArg t =>
              match t with
              | .path iseg0 irest =>
                  if irest.length < 1 then none else some (iseg0.ident, t)
              | .otherTy _ => none
          | .otherArg _ => none
      | _ => none
  | .otherTy _ => none

/-- Model of `collect_associated_types`: the associated-type references keyed by
their root parameter (a `HashMap`; iteration order is immaterial to the
properties proved here, only membership and `get` are used). -/
def collect_associated_types (fields : List DField) : List (String × Syn.InnerTy) :=
  fields.foldl (fun acc f =>
    match assocEntry f with
    | some (k, v) => insertA acc k v
    | none => acc) []

/-- Model of `collect_custom_bound_attr`: the first attribute whose meta parses
must be `Meta::List(nested[0] = NameValue(_, Lit::Str(s)))`; `s` is
then parsed as a where-predicate by `syn` (an external collaborator,
passed in as `parseWP`). -/
def collect_custom_bound_attr (parseWP : String → Option Syn.QTokens)
    (attrs : List Syn.Attr) : Option Syn.QTokens :=
  match (attrs.filterMap (fun a => a.meta)).head? with
  | some (Syn.Meta.list n0 _) =>
      match n0 with
      | .metaNameValue _ l =>
          match l with
          | .str s => parseWP s
          | _ => none
      | _ => none
  | some _ => none
  | none => none

/-- One predicate pushed onto the generated where clause: the
`#assoc_ty: std::fmt::Debug` bound for an associated-type reference, or
the custom predicate parsed from the declaration attribute. -/
inductive WherePred where
  | debugBound (t : Syn.InnerTy)
  | custom (p : Syn.QTokens)
deriving DecidableEq, Repr

/-- The generics the debug derive rewrites: for each type parameter,
whether a `std::fmt::Debug` bound was pushed onto it, plus the pushed
where-clause predicates. -/
structure DebugGenerics where
  paramsWithBound : List (String × Bool)
  wherePreds : List WherePred
deriving DecidableEq, Repr

/-- The generated `Debug` impl: the preamble name handed to
`debug_struct`, the per-field formatting calls, and the rewritten
generics. -/
structure DebugImplOut where
  typeName : String
  entries : List DebugEntry
  generics : DebugGenerics
deriving DecidableEq, Repr

/-- The debug derive's output: an early-returned diagnostic token
sequence, or the generated impl. -/
inductive DebugOut where
  | diagErr (d : DiagTokens)
  | implOut (out : DebugImplOut)
deriving DecidableEq, Repr

/-- The field list shape of the debug derive's input declaration. -/
inductive DFieldsShape where
  | named (fields : List DField)
  | unnamedF
  | unitF
deriving DecidableEq, Repr

/-- The data shape of the debug derive's input declaration. -/
inductive DData where
  | structD (fields : DFieldsShape)
  | enumD
  | unionD
deriving DecidableEq, Repr

/-- Model of `syn::DeriveInput` for the debug derive: name, type
parameter identifiers, declaration attributes, data shape. -/
structure DDeriveInput where
  ident : String
  generics : List String
  attrs : List Syn.Attr
  data : DData
deriving DecidableEq, Repr

/-- The condition under which the derive pushes a `Debug` bound onto a
type parameter: not in the phantom set, not a key of the
associated-type map, and no custom bound present. -/
def boundPushed (phantom : List String) (assoc : List (String × Syn.InnerTy))
    (handwritten : Option Syn.QTokens) (p : String) : Bool :=
  !(phantom.contains p) && (assoc.find? (fun q => q.1 == p)).isNone && handwritten.isNone

/-- Model of `derive` of `debug/src/lib.rs`: named-field structs produce the
`Debug` impl (with an early return of the diagnostic tokens when a
`debug` field attribute is malformed); every other shape hits
`unimplemented!()`.  The where clause receives one `Debug` predicate
per associated-type reference (unconditionally) and then the custom
predicate when present. -/
def derive (parseWP : String → Option Syn.QTokens) (input : DDeriveInput) :
    Except BuilderLib.PanicE DebugOut :=
  match input.data with
  | .structD (.named fields) =>
      let phantom := collect_phantom_data fields
      match collect_fields_format fields with
      | .error e => .ok (.diagErr e)
      | .ok attrMap =>
          let entries := format_debug_fields fields attrMap
          let assoc := collect_associated_types fields
          let handwritten := collect_custom_bound_attr parseWP input.attrs
          let params := input.generics.map
            (fun p => (p, boundPushed phantom assoc handwritten p))
          let preds := assoc.map (fun q => WherePred.debugBound q.2) ++
            (match handwritten with
              | some p => [WherePred.custom p]
              | none => [])
          .ok (.implOut ⟨input.ident, entries, ⟨params, preds⟩⟩)
  | .structD _ => throw .unimplementedE
  | .enumD => throw .unimplementedE
  | .unionD => throw .unimplementedE

end DebugLib

namespace SeqLib

/-- A token of the `seq!` invocation, at the granularity the parser
inspects: an identifier, the `in` keyword, an integer literal, the `..`
range token, or a whole expression (parsed by `syn::Expr`, an external
collaborator, and carried opaquely). -/
inductive Tok where
  | identT (s : String)
  | kwIn
  | litIntT (n : Nat)
  | dotdot
  | exprT (body : Syn.QTokens)
deriving DecidableEq, Repr

/-- The structured value `Seq::parse` produces: loop variable name,
start, end, body. -/
structure Seq where
  name : String
  start : Nat
  stop : Nat
  body : Syn.QTokens
deriving DecidableEq, Repr

/-- A `syn` parse error, recorded at the number of grammar positions
successfully consumed before the offending token (or end of input). -/
structure ParseErr where
  pos : Nat
deriving DecidableEq, Repr

/-- Parser state: remaining tokens plus consumed-position counter. -/
abbrev PState := List Tok × Nat

/-- Model of `input.parse::<syn::Ident>()`: consumes an identifier token;
keywords such as `in` are not identifiers. -/
def pIdent : PState → Except ParseErr (String × PState)
  | (.identT s :: rest, p) => .ok (s, (rest, p + 1))
  | (_, p) => .error ⟨p⟩

/-- Model of `input.parse::<Token![in]>()`. -/
def pKwIn : PState → Except ParseErr PState
  | (.kwIn :: rest, p) => .ok (rest, p + 1)
  | (_, p) => .error ⟨p⟩

/-- Model of `input.parse::<syn::LitInt>()`. -/
def pLitInt : PState → Except ParseErr (Nat × PState)
  | (.litIntT n :: rest, p) => .ok (n, (rest, p + 1))
  | (_, p) => .error ⟨p⟩

/-- Model of `input.parse::<Token![..]>()`. -/
def pDotdot : PState → Except ParseErr PState
  | (.dotdot :: rest, p) => .ok (rest, p + 1)
  | (_, p) => .error ⟨p⟩

/-- Model of `input.parse::<syn::Expr>()`. -/
def pExpr : PState → Except ParseErr (Syn.QTokens × PState)
  | (.exprT b :: rest, p) => .ok (b, (rest, p + 1))
  | (_, p) => .error ⟨p⟩

/-- Model of `Seq::parse` driven by `parse_macro_input!`: the five grammar steps
of the source in order, then `syn::parse`'s end-of-stream check. -/
def seqParse (ts : List Tok) : Except ParseErr Seq := do
  let (name, s1) ← pIdent (ts, 0)
  let s2 ← pKwIn s1
  let (start, s3) ← pLitInt s2
  let s4 ← pDotdot s3
  let (stop, s5) ← pLitInt s4
  let (body, s6) ← pExpr s5
  match s6.1 with
  | [] => pure ⟨name, start, stop, body⟩
  | _ => throw ⟨s6.2⟩

/-- The `seq!` macro's emitted fragment: the parse error's tokens, or
the empty `quote! {}` output (no expansion is performed). -/
inductive SeqOut where
  | emptyOut
  | compileErrAt (pos : Nat)
deriving DecidableEq, Repr

/-- Model of `seq` of `seq/src/lib.rs`. -/
def seq (ts : List Tok) : SeqOut :=
  match seqParse ts with
  | .ok _ => .emptyOut
  | .error e => .compileErrAt e.pos

/-- Modelled from the spec (§4.5): whether a token fits grammar
position `i` of "identifier, keyword `in`, integer literal, range
token, integer literal, then one expression". -/
def slotOk : Nat → Tok → Bool
  | 0, .identT _ => true
  | 1, .kwIn => true
  | 2, .litIntT _ => true
  | 3, .dotdot => true
  | 4, .litIntT _ => true
  | 5, .exprT _ => true
  | _, _ => false

/-- Modelled from the spec (§4.5): the first grammar position whose
token is missing or does not match (`none` when the whole input matches
the grammar exactly). -/
def specFirstBad (ts : List Tok) : Option Nat :=
  go ts 0
where
  go : List Tok → Nat → Option Nat
    | [], i => if i < 6 then some i else none
    | t :: rest, i =>
        if 6 ≤ i then some i
        else if slotOk i t then go rest (i + 1) else some i

end SeqLib

namespace BuilderLib

/-- Whether a builder-field storage can represent absence through an
`Option` at its head: the synthesized `::std::option::Option<_>` wrap,
or a declared type whose own outer identifier is `Option`. -/
def StoredTy.isOptionHeaded : StoredTy → Bool
  | .optWrapped _ => true
  | .raw t =>
      match t with
      | .path seg0 _ => seg0.ident == "Option"
      | .otherTy _ => false

end BuilderLib

namespace DebugLib

/-- The format literal a field's `debug` attribute carries, when the
first `debug` attribute parses as a name-value pair. -/
def debugAttrLit (f : DField) : Option Syn.Lit :=
  match f.attrs.find? (fun a => a.isIdent "debug") with
  | some a =>
      match a.meta with
      | some (.nameValue _ l) => some l
      | _ => none
  | none => none

end DebugLib

namespace Fixtures

open Syn

/-- The declared type `String`. -/
def tyString : Ty := .path ⟨"String", .noArgs⟩ []

/-- The declared type `Option<String>`. -/
def tyOptionString : Ty :=
  .path ⟨"Option", .angle (.tyArg (.path ⟨"String", ⟨""⟩⟩ [])) []⟩ []

/-- The declared type `Vec<String>`. -/
def tyVecString : Ty :=
  .path ⟨"Vec", .angle (.tyArg (.path ⟨"String", ⟨""⟩⟩ [])) []⟩ []

/-- The attribute `#[builder(each = "<name>")]`. -/
def eachAttr (name : String) : Attr :=
  ⟨"builder", [], some (.list (.metaNameValue "each" (.str name)) [])⟩

/-- The attribute `#[builder(eachh = "x")]` — a misspelled key. -/
def eachhAttr : Attr :=
  ⟨"builder", [], some (.list (.metaNameValue "eachh" (.str "x")) [])⟩

/-- The attribute `#[builder = "x"]` — a name-value payload, not a list. -/
def builderNameValueAttr : Attr :=
  ⟨"builder", [], some (.nameValue "builder" (.str "x"))⟩

/-- A `builder` attribute whose payload fails `parse_meta`. -/
def builderUnparseableAttr : Attr := ⟨"builder", [], none⟩

/-- Required field `x: String`. -/
def fx : BuilderLib.Field := ⟨"x", tyString, []⟩

/-- Annotated field `names: Option<String>` with
`#[builder(each = "name")]` — the declared type also looks like the
optional wrapper. -/
def fnames : BuilderLib.Field := ⟨"names", tyOptionString, [eachAttr "name"]⟩

/-- Annotated field `args: Vec<String>` with `#[builder(each = "arg")]`. -/
def fargs : BuilderLib.Field := ⟨"args", tyVecString, [eachAttr "arg"]⟩

/-- Optional field `dir: Option<String>`. -/
def fdir : BuilderLib.Field := ⟨"dir", tyOptionString, []⟩

/-- Field with the misspelled `eachh` key. -/
def fbadKey : BuilderLib.Field := ⟨"y", tyVecString, [eachhAttr]⟩

/-- Field whose `builder` attribute parses to `Meta::NameValue`. -/
def fnv : BuilderLib.Field := ⟨"z", tyVecString, [builderNameValueAttr]⟩

/-- Field whose `builder` attribute payload does not parse at all. -/
def fpe : BuilderLib.Field := ⟨"w", tyVecString, [builderUnparseableAttr]⟩

/-- Simple-variant field `x: String`. -/
def sfx : BuilderSimple.SField := ⟨some "x", tyString⟩

/-- The declared type `PhantomData<T>`. -/
def tyPhantomT : Ty :=
  .path ⟨"PhantomData", .angle (.tyArg (.path ⟨"T", ⟨""⟩⟩ [])) []⟩ []

/-- The declared type `T` (a bare type parameter). -/
def tyT : Ty := .path ⟨"T", .noArgs⟩ []

/-- The inner path `T::Value` (two segments). -/
def innerTValue : InnerTy := .path ⟨"T", ⟨""⟩⟩ [⟨"Value", ⟨""⟩⟩]

/-- The declared type `Vec<T::Value>` — an associated-type reference. -/
def tyVecTValue : Ty := .path ⟨"Vec", .angle (.tyArg innerTValue) []⟩ []

/-- The attribute `#[debug(bound = "T::Value: Debug")]` on the declaration. -/
def boundAttr : Attr :=
  ⟨"debug", [], some (.list (.metaNameValue "bound" (.str "T::Value: Debug")) [])⟩

/-- The attribute `#[debug = "0b{:08b}"]` on a field. -/
def debugFmtAttr : Attr := ⟨"debug", [], some (.nameValue "debug" (.str "0b{:08b}"))⟩

/-- A field `debug` attribute whose payload is a list, not name=value. -/
def debugListAttr : Attr :=
  ⟨"debug", [], some (.list (.metaNameValue "bound" (.str "T: Debug")) [])⟩

/-- The identity predicate parser: every string parses (models `syn`
accepting the predicate text). -/
def parseWPid : String → Option QTokens := fun s => some ⟨s⟩

end Fixtures

namespace BuilderLib

/-- The builder-struct field an assignment reads and writes. -/
def Assign.fieldName : Assign → String
  | .takeA f => f
  | .drainA f => f
  | .takeUnwrapA f => f

end BuilderLib

namespace BuilderLib

theorem exbind_ok {ε α β : Type} (a : α) (g : α → Except ε β) :
    (Except.ok a >>= g) = g a := rfl

theorem exbind_error {ε α β : Type} (e : ε) (g : α → Except ε β) :
    ((Except.error e : Except ε α) >>= g) = .error e := rfl

theorem expure_eq_ok {ε α : Type} (a : α) : (pure a : Except ε α) = .ok a := rfl

theorem isOptionField_ok {f : Field} {b : Bool} (h : isOptionField f = .ok b) :
    b = isOptB f := by
  cases hty : f.ty with
  | path seg0 rest =>
      simp only [isOptionField, hty, expure_eq_ok, Except.ok.injEq] at h
      simp [isOptB, hty, h]
  | otherTy t => simp [isOptionField, hty] at h

/-- On success, `fetch_optional_fields` is the plain filter by the
`Option`-outer-identifier test. -/
theorem fetch_optional_eq : ∀ {fields l : List Field},
    fetch_optional_fields fields = .ok l → l = fields.filter isOptB
  | [], l, h => by
      simp only [fetch_optional_fields, expure_eq_ok, Except.ok.injEq] at h
      simp [← h]
  | f :: rest, l, h => by
      rw [fetch_optional_fields] at h
      cases hb : isOptionField f with
      | error e => rw [hb, exbind_error] at h; exact absurd h (by simp)
      | ok b =>
          rw [hb, exbind_ok] at h
          cases hr : fetch_optional_fields rest with
          | error e => rw [hr, exbind_error] at h; exact absurd h (by simp)
          | ok r =>
              rw [hr, exbind_ok, expure_eq_ok] at h
              cases h
              rw [isOptionField_ok hb, fetch_optional_eq hr]
              by_cases hOpt : isOptB f <;> simp [List.filter_cons, hOpt]

/-- The modelled `Vec::contains` over a filtered list, for an element of the base
list, is the filter predicate. -/
theorem contains_filter {l : List Field} {p : Field → Bool} {f : Field}
    (hf : f ∈ l) : (l.filter p).contains f = p f := by
  by_cases hp : p f = true
  · have hmem : f ∈ l.filter p := List.mem_filter.mpr ⟨hf, hp⟩
    rw [hp]
    exact List.elem_iff.mpr hmem
  · have hmem : f ∉ l.filter p := fun hc => hp (List.mem_filter.mp hc).2
    simp only [Bool.not_eq_true] at hp
    rw [hp]
    by_contra hc
    simp only [Bool.not_eq_false] at hc
    exact hmem (List.elem_iff.mp hc)

theorem attrsAllOk_ok_false {l : List Syn.Attr}
    (hall : ∀ a ∈ l, ∃ c, builderAttrOk a = .ok c)
    (hbad : ∃ a ∈ l, builderAttrOk a = .ok false) :
    attrsAllOk l = .ok false := by
  induction l with
  | nil => simp at hbad
  | cons a rest ih =>
      obtain ⟨c, hc⟩ := hall a (List.mem_cons_self a rest)
      rw [attrsAllOk, hc, exbind_ok]
      cases c with
      | false => rfl
      | true =>
          simp only [if_true]
          obtain ⟨b, hb, hbfalse⟩ := hbad
          rcases List.mem_cons.mp hb with hba | hbrest
          · subst hba; rw [hc] at hbfalse; exact absurd hbfalse (by simp)
          · exact ih (fun x hx => hall x (List.mem_cons_of_mem _ hx)) ⟨b, hbrest, hbfalse⟩

theorem filterAttrsOk_length : ∀ {l r : List Field},
    filterAttrsOk l = .ok r → r.length ≤ l.length
  | [], r, h => by
      simp only [filterAttrsOk, expure_eq_ok, Except.ok.injEq] at h
      simp [← h]
  | f :: rest, r, h => by
      rw [filterAttrsOk] at h
      cases hb : attrsAllOk f.attrs with
      | error e => rw [hb, exbind_error] at h; exact absurd h (by simp)
      | ok b =>
          rw [hb, exbind_ok] at h
          cases hr : filterAttrsOk rest with
          | error e => rw [hr, exbind_error] at h; exact absurd h (by simp)
          | ok r0 =>
              rw [hr, exbind_ok, expure_eq_ok] at h
              cases h
              have := filterAttrsOk_length hr
              cases b <;> simp <;> omega

theorem filterAttrsOk_full : ∀ {l r : List Field},
    filterAttrsOk l = .ok r → r.length = l.length →
    ∀ f ∈ l, attrsAllOk f.attrs = .ok true
  | [], r, _, _, f, hf => absurd hf (by simp)
  | f :: rest, r, h, hlen, g, hg => by
      rw [filterAttrsOk] at h
      cases hb : attrsAllOk f.attrs with
      | error e => rw [hb, exbind_error] at h; exact absurd h (by simp)
      | ok b =>
          rw [hb, exbind_ok] at h
          cases hr : filterAttrsOk rest with
          | error e => rw [hr, exbind_error] at h; exact absurd h (by simp)
          | ok r0 =>
              rw [hr, exbind_ok, expure_eq_ok] at h
              cases h
              have hle := filterAttrsOk_length hr
              cases b with
              | false => simp at hlen; omega
              | true =>
                  simp only [if_true, List.length_cons] at hlen
                  rcases List.mem_cons.mp hg with hgf | hgrest
                  · subst hgf; exact hb
                  · exact filterAttrsOk_full hr (by omega) g hgrest

/-- On `Some`, `fetch_builder_fields` returns the plain filter by
`hasBuilderAttr`, with every kept field's attributes validated. -/
theorem fetch_builder_eq {fields bf : List Field}
    (h : fetch_builder_fields fields = .ok (some bf)) :
    bf = fields.filter hasBuilderAttr ∧
      ∀ f ∈ bf, attrsAllOk f.attrs = .ok true := by
  rw [fetch_builder_fields] at h
  cases hr : filterAttrsOk (fields.filter hasBuilderAttr) with
  | error e => rw [hr, exbind_error] at h; exact absurd h (by simp)
  | ok filtered =>
      rw [hr, exbind_ok] at h
      by_cases hlen : (fields.filter hasBuilderAttr).length = filtered.length
      · simp only [hlen, ne_eq, not_true_eq_false, if_false, expure_eq_ok,
          Except.ok.injEq, Option.some.injEq] at h
        subst h
        exact ⟨rfl, filterAttrsOk_full hr hlen.symm⟩
      · simp only [ne_eq, hlen, not_false_eq_true, if_true, expure_eq_ok,
          Except.ok.injEq] at h
        exact absurd h (by simp)

/-- Successful `mapPanic` relates input and output pointwise. -/
theorem mapPanic_ok {β : Type} {g : Field → Except PanicE β} : ∀ {l : List Field} {r : List β},
    mapPanic g l = .ok r → List.Forall₂ (fun f s => g f = .ok s) l r
  | [], r, h => by
      simp only [mapPanic, expure_eq_ok, Except.ok.injEq] at h
      simp [← h]
  | f :: rest, r, h => by
      rw [mapPanic] at h
      cases hb : g f with
      | error e => rw [hb, exbind_error] at h; exact absurd h (by simp)
      | ok s =>
          rw [hb, exbind_ok] at h
          cases hr : mapPanic g rest with
          | error e => rw [hr, exbind_error] at h; exact absurd h (by simp)
          | ok ss =>
              rw [hr, exbind_ok, expure_eq_ok] at h
              cases h
              exact List.Forall₂.cons hb (mapPanic_ok hr)

end BuilderLib

namespace BuilderLib

theorem lookupSlot_cons_eq {α : Type} {n : String} {s : Slot α} {l : BState α} :
    lookupSlot ((n, s) :: l) n = some s := by
  simp [lookupSlot, List.find?_cons]

theorem lookupSlot_cons_ne {α : Type} {m n : String} {s : Slot α} {l : BState α}
    (h : m ≠ n) : lookupSlot ((m, s) :: l) n = lookupSlot l n := by
  have hmn : (m == n) = false := by simp [h]
  simp [lookupSlot, List.find?_cons, hmn]

theorem setSlot_cons_eq {α : Type} {n : String} {s v : Slot α} {l : BState α} :
    setSlot ((n, s) :: l) n v = (n, v) :: l := by
  simp [setSlot]

theorem setSlot_cons_ne {α : Type} {m n : String} {s v : Slot α} {l : BState α}
    (h : m ≠ n) : setSlot ((m, s) :: l) n v = (m, s) :: setSlot l n v := by
  have hmn : (m == n) = false := by simp [h]
  simp [setSlot, hmn]

theorem lookupSlot_setSlot_self {α : Type} {n : String} {v : Slot α} :
    ∀ (st : BState α),
    lookupSlot (setSlot st n v) n = if (lookupSlot st n).isSome then some v else none
  | [] => by simp [lookupSlot, setSlot]
  | (m, s) :: rest => by
      by_cases hm : m = n
      · subst hm
        rw [setSlot_cons_eq, lookupSlot_cons_eq, lookupSlot_cons_eq]
        rfl
      · rw [setSlot_cons_ne hm, lookupSlot_cons_ne hm, lookupSlot_cons_ne hm]
        exact lookupSlot_setSlot_self rest

theorem lookupSlot_setSlot_ne {α : Type} {m n : String} {v : Slot α} (hmn : m ≠ n) :
    ∀ (st : BState α), lookupSlot (setSlot st n v) m = lookupSlot st m
  | [] => by simp [lookupSlot, setSlot]
  | (k, s) :: rest => by
      by_cases hk : k = n
      · subst hk
        rw [setSlot_cons_eq, lookupSlot_cons_ne (Ne.symm hmn),
          lookupSlot_cons_ne (Ne.symm hmn)]
      · rw [setSlot_cons_ne hk]
        by_cases hkm : k = m
        · subst hkm
          rw [lookupSlot_cons_eq, lookupSlot_cons_eq]
        · rw [lookupSlot_cons_ne hkm, lookupSlot_cons_ne hkm]
          exact lookupSlot_setSlot_ne hmn rest

theorem classify_required_iff {optF bldF : List Field} {f : Field} :
    classify optF bldF f = .requiredC ↔
      optF.contains f = false ∧ bldF.contains f = false := by
  unfold classify
  by_cases ho : optF.contains f = true <;> by_cases hb : bldF.contains f = true <;>
    simp_all

theorem assignFor_eq_classify {optF bldF : List Field} {f : Field} :
    assignFor optF bldF f =
      (match classify optF bldF f with
        | .optionalC => .takeA f.ident
        | .repeatedC => .drainA f.ident
        | .requiredC => .takeUnwrapA f.ident) := by
  unfold assignFor classify
  by_cases ho : optF.contains f = true <;> by_cases hb : bldF.contains f = true <;>
    simp_all

theorem checkFor_eq_classify {optF bldF : List Field} {f : Field} :
    checkFor optF bldF f =
      (match classify optF bldF f with
        | .requiredC => some ⟨f.ident, "value is not set: " ++ f.ident⟩
        | _ => none) := by
  unfold checkFor classify
  by_cases ho : optF.contains f = true <;> by_cases hb : bldF.contains f = true <;>
    simp_all

/-- The generated guard sequence fires exactly on the first required
field whose slot is `None`, yielding its formatted message. -/
theorem runChecks_map_eq {α : Type} [DecidableEq α]
    (optF bldF : List Field) (st : BState α) :
    ∀ (fs : List Field),
    runChecks (fs.map (checkFor optF bldF)) st =
      (fs.find? (unsetRequiredB optF bldF st)).map
        (fun f => "value is not set: " ++ f.ident)
  | [] => by simp [runChecks]
  | f :: rest => by
      rw [List.map_cons, checkFor_eq_classify]
      cases hcl : classify optF bldF f with
      | optionalC =>
          have hu : unsetRequiredB optF bldF st f = false := by
            simp [unsetRequiredB, hcl]
          simp only [runChecks, List.find?_cons, hu]
          exact runChecks_map_eq optF bldF st rest
      | repeatedC =>
          have hu : unsetRequiredB optF bldF st f = false := by
            simp [unsetRequiredB, hcl]
          simp only [runChecks, List.find?_cons, hu]
          exact runChecks_map_eq optF bldF st rest
      | requiredC =>
          simp only [runChecks]
          cases hsl : lookupSlot st f.ident with
          | none =>
              have hu : unsetRequiredB optF bldF st f = false := by
                simp [unsetRequiredB, hsl]
              simp only [hsl, List.find?_cons, hu]
              exact runChecks_map_eq optF bldF st rest
          | some s =>
              cases s with
              | optSlot o =>
                  cases o with
                  | none =>
                      have hu : unsetRequiredB optF bldF st f = true := by
                        simp [unsetRequiredB, hcl, hsl]
                      simp [hsl, List.find?_cons, hu]
                  | some v =>
                      have hu : unsetRequiredB optF bldF st f = false := by
                        simp [unsetRequiredB, hsl]
                      simp only [hsl, List.find?_cons, hu]
                      exact runChecks_map_eq optF bldF st rest
              | vecSlot vs =>
                  have hu : unsetRequiredB optF bldF st f = false := by
                    simp [unsetRequiredB, hsl]
                  simp only [hsl, List.find?_cons, hu]
                  exact runChecks_map_eq optF bldF st rest

end BuilderLib

namespace BuilderLib

theorem assignedVal_congr {α : Type} {optF bldF : List Field} {st st' : BState α}
    {f : Field} {v : FVal α}
    (h : lookupSlot st' f.ident = lookupSlot st f.ident) :
    assignedVal optF bldF st f v ↔ assignedVal optF bldF st' f v := by
  unfold assignedVal
  cases classify optF bldF f <;> rw [h]

theorem forall₂_imp_mem {α β : Type} {R S : α → β → Prop} :
    ∀ {l : List α} {ks : List β}, List.Forall₂ R l ks →
    (∀ a ∈ l, ∀ b, R a b → S a b) → List.Forall₂ S l ks
  | [], [], List.Forall₂.nil, _ => List.Forall₂.nil
  | a :: l, _ :: _, List.Forall₂.cons hab h, himp =>
      List.Forall₂.cons (himp a (List.mem_cons_self a l) _ hab)
        (forall₂_imp_mem h (fun x hx => himp x (List.mem_cons_of_mem a hx)))

/-- Running the generated assignments over a state whose slots are all
present and correctly shaped succeeds, commits each field's stored
value (one entry per field, in declaration order), and leaves every
field's slot emptied; slots of other names are untouched. -/
theorem runAssigns_map {α : Type} (optF bldF : List Field) :
    ∀ (fs : List Field) (st : BState α),
    (fs.map Field.ident).Nodup →
    (∀ f ∈ fs, ∃ v, assignedVal optF bldF st f v) →
    ∃ kvs st',
      runAssigns (fs.map (assignFor optF bldF)) st = (.ok kvs, st') ∧
      List.Forall₂ (fun f kv => kv.1 = f.ident ∧ assignedVal optF bldF st f kv.2) fs kvs ∧
      (∀ f ∈ fs, lookupSlot st' f.ident = some (emptiedSlot optF bldF f)) ∧
      (∀ n, n ∉ fs.map Field.ident → lookupSlot st' n = lookupSlot st n)
  | [], st, _, _ => by
      refine ⟨[], st, ?_, List.Forall₂.nil, ?_, ?_⟩ <;> simp [runAssigns]
  | f :: rest, st, hN, hsh => by
      obtain ⟨v, hv⟩ := hsh f (List.mem_cons_self f rest)
      have hNr : (rest.map Field.ident).Nodup := (List.nodup_cons.mp hN).2
      have hfid : f.ident ∉ rest.map Field.ident := (List.nodup_cons.mp hN).1
      -- one step of the head assignment
      have hstep : ∃ st1, runAssign (assignFor optF bldF f) st = (.ok (f.ident, v), st1) ∧
          lookupSlot st1 f.ident = some (emptiedSlot optF bldF f) ∧
          (∀ n, n ≠ f.ident → lookupSlot st1 n = lookupSlot st n) := by
        rw [assignFor_eq_classify]
        unfold assignedVal at hv
        unfold emptiedSlot
        cases hcl : classify optF bldF f with
        | optionalC =>
            rw [hcl] at hv
            obtain ⟨o, ho, hveq⟩ := hv
            subst hveq
            refine ⟨setSlot st f.ident (.optSlot none), ?_, ?_, ?_⟩
            · simp [runAssign, ho]
            · rw [lookupSlot_setSlot_self, ho]; rfl
            · intro n hn; exact lookupSlot_setSlot_ne hn _
        | repeatedC =>
            rw [hcl] at hv
            obtain ⟨vs, ho, hveq⟩ := hv
            subst hveq
            refine ⟨setSlot st f.ident (.vecSlot []), ?_, ?_, ?_⟩
            · simp [runAssign, ho]
            · rw [lookupSlot_setSlot_self, ho]; rfl
            · intro n hn; exact lookupSlot_setSlot_ne hn _
        | requiredC =>
            rw [hcl] at hv
            obtain ⟨x, ho, hveq⟩ := hv
            subst hveq
            refine ⟨setSlot st f.ident (.optSlot none), ?_, ?_, ?_⟩
            · simp [runAssign, ho]
            · rw [lookupSlot_setSlot_self, ho]; rfl
            · intro n hn; exact lookupSlot_setSlot_ne hn _
      obtain ⟨st1, hrun1, hemp1, hframe1⟩ := hstep
      have hsame : ∀ g ∈ rest, lookupSlot st1 g.ident = lookupSlot st g.ident := by
        intro g hg
        refine hframe1 g.ident (fun hc => hfid ?_)
        rw [← hc]
        exact List.mem_map_of_mem Field.ident hg
      have hshr : ∀ g ∈ rest, ∃ w, assignedVal optF bldF st1 g w := by
        intro g hg
        obtain ⟨w, hw⟩ := hsh g (List.mem_cons_of_mem f hg)
        exact ⟨w, (assignedVal_congr (hsame g hg)).mp hw⟩
      obtain ⟨kvs, st', hrunr, hfa, hempr, hframer⟩ :=
        runAssigns_map optF bldF rest st1 hNr hshr
      refine ⟨(f.ident, v) :: kvs, st', ?_, ?_, ?_, ?_⟩
      · simp only [List.map_cons, runAssigns, hrun1, hrunr]
      · refine List.Forall₂.cons ⟨rfl, hv⟩ ?_
        refine forall₂_imp_mem hfa ?_
        intro g hg kv hkv
        exact ⟨hkv.1, (assignedVal_congr (hsame g hg)).mpr hkv.2⟩
      · intro g hg
        rcases List.mem_cons.mp hg with hgf | hgrest
        · subst hgf
          rw [hframer g.ident hfid, hemp1]
        · exact hempr g hgrest
      · intro n hn
        have hn1 : n ∉ rest.map Field.ident := fun hc => hn (by simp [hc])
        have hn2 : n ≠ f.ident := fun hc => hn (by simp [hc])
        rw [hframer n hn1, hframe1 n hn2]

end BuilderLib

namespace BuilderLib

/-- A firing guard makes the generated `build` return the formatted
error, leaving the builder state untouched and constructing nothing. -/
theorem runBuild_err {α : Type} [DecidableEq α] (fields optF bldF : List Field)
    (st : BState α) (f : Field)
    (hfind : fields.find? (unsetRequiredB optF bldF st) = some f) :
    runBuild (expand_builder_build_fn fields optF bldF) st
      = (.error (.errMsg ("value is not set: " ++ f.ident)), st) := by
  unfold runBuild expand_builder_build_fn
  rw [runChecks_map_eq, hfind]
  rfl

/-- With every slot present, correctly shaped and every required slot
filled, the generated `build` succeeds, committing each field's value
and emptying every slot. -/
theorem runBuild_ok {α : Type} [DecidableEq α] (fields optF bldF : List Field)
    (st : BState α)
    (hN : (fields.map Field.ident).Nodup)
    (hsh : ∀ f ∈ fields, ∃ v, assignedVal optF bldF st f v) :
    ∃ kvs st',
      runBuild (expand_builder_build_fn fields optF bldF) st = (.ok kvs, st') ∧
      List.Forall₂ (fun f kv => kv.1 = f.ident ∧ assignedVal optF bldF st f kv.2)
        fields kvs ∧
      (∀ f ∈ fields, lookupSlot st' f.ident = some (emptiedSlot optF bldF f)) ∧
      (∀ n, n ∉ fields.map Field.ident → lookupSlot st' n = lookupSlot st n) := by
  have hfind : fields.find? (unsetRequiredB optF bldF st) = none := by
    rw [List.find?_eq_none]
    intro f hf
    obtain ⟨v, hv⟩ := hsh f hf
    unfold unsetRequiredB
    unfold assignedVal at hv
    cases hcl : classify optF bldF f with
    | optionalC => simp [hcl]
    | repeatedC => simp [hcl]
    | requiredC =>
        rw [hcl] at hv
        obtain ⟨x, hx, _⟩ := hv
        simp [hcl, hx]
  obtain ⟨kvs, st', hrun, hfa, hemp, hframe⟩ :=
    runAssigns_map optF bldF fields st hN hsh
  refine ⟨kvs, st', ?_, hfa, hemp, hframe⟩
  unfold runBuild expand_builder_build_fn
  rw [runChecks_map_eq, hfind]
  simp only [Option.map_none']
  rw [hrun]

end BuilderLib

namespace BuilderLib

theorem emptiedSlot_of_required {α : Type} {optF bldF : List Field} {f : Field}
    (h : classify optF bldF f = .requiredC) :
    (emptiedSlot optF bldF f : Slot α) = .optSlot none := by
  unfold emptiedSlot
  rw [h]

/-- C1 (amended): in the annotation-aware builder, assembling with a
required field never set is a runtime-reported failure, not a panic:
`build` returns `Err` carrying the first such field's name in the form
`"value is not set: <name>"`, constructs nothing, and leaves the
builder state untouched.  (The claim's `"field not set: <name>"`
message form, and its `never panics` for the simple variant, are
refuted by the counterexample.) -/
theorem builder_build_missing_required {α : Type} [DecidableEq α]
    (fields optF bldF : List Field) (st : BState α) (f : Field)
    (hfind : fields.find? (unsetRequiredB optF bldF st) = some f) :
    f ∈ fields ∧ classify optF bldF f = .requiredC ∧
    lookupSlot st f.ident = some (.optSlot none) ∧
    runBuild (expand_builder_build_fn fields optF bldF) st
      = (.error (.errMsg ("value is not set: " ++ f.ident)), st) := by
  have hmem := List.mem_of_find?_eq_some hfind
  have hp := List.find?_some hfind
  unfold unsetRequiredB at hp
  rw [Bool.and_eq_true] at hp
  refine ⟨hmem, beq_iff_eq.mp hp.1, beq_iff_eq.mp hp.2, ?_⟩
  exact runBuild_err fields optF bldF st f hfind

/-- Witness for `builder_build_missing_required` at the one-field
declaration `{ x: String }` and the empty builder state. -/
theorem builder_build_missing_required_witness :
    runBuild (expand_builder_build_fn [Fixtures.fx] [] [])
        [("x", Slot.optSlot (none : Option Nat))]
      = (.error (.errMsg ("value is not set: " ++ Fixtures.fx.ident)),
          [("x", Slot.optSlot none)]) :=
  (builder_build_missing_required [Fixtures.fx] [] []
    [("x", Slot.optSlot (none : Option Nat))] Fixtures.fx rfl).2.2.2

/-- C1 counterexample: the generated message is
`"value is not set: x"`, not the claimed `"field not set: x"`; and the
simple variant's `build` panics (`unwrap` on `None`) instead of
returning an error when the required field `x` was never set. -/
theorem builder_build_error_message_cex :
    (runBuild (expand_builder_build_fn [Fixtures.fx] [] [])
        [("x", Slot.optSlot (none : Option Nat))]).1
      = .error (.errMsg "value is not set: x") ∧
    "value is not set: x" ≠ "field not set: x" ∧
    BuilderSimple.runSBuild (BuilderSimple.extract_builder_fields [Fixtures.sfx])
        (BuilderSimple.defaultState (α := Nat)
          (BuilderSimple.extract_fields [Fixtures.sfx]))
      = .error .unwrapNone := by
  refine ⟨rfl, ?_, rfl⟩
  decide

/-- C10: a successful `build` moves the stored values out of the
builder (required and optional entries are taken, repeated collections
drained): afterwards every slot is emptied, and a second `build` fails
with a `"value is not set"` error whenever the declaration has a
required field. -/
theorem builder_build_moves_values {α : Type} [DecidableEq α]
    (fields optF bldF : List Field) (st : BState α)
    (hN : (fields.map Field.ident).Nodup)
    (hsh : ∀ f ∈ fields, ∃ v, assignedVal optF bldF st f v) :
    ∃ kvs st',
      runBuild (expand_builder_build_fn fields optF bldF) st = (.ok kvs, st') ∧
      List.Forall₂ (fun f kv => kv.1 = f.ident ∧ assignedVal optF bldF st f kv.2)
        fields kvs ∧
      (∀ f ∈ fields, lookupSlot st' f.ident = some (emptiedSlot optF bldF f)) ∧
      (∀ g ∈ fields, classify optF bldF g = .requiredC →
        ∃ f' : Field, (runBuild (expand_builder_build_fn fields optF bldF) st').1
          = .error (.errMsg ("value is not set: " ++ f'.ident))) := by
  obtain ⟨kvs, st', hrun, hfa, hemp, _⟩ := runBuild_ok fields optF bldF st hN hsh
  refine ⟨kvs, st', hrun, hfa, hemp, ?_⟩
  intro g hg hreq
  have hunset : unsetRequiredB optF bldF st' g = true := by
    have h1 := hemp g hg
    rw [emptiedSlot_of_required hreq] at h1
    simp [unsetRequiredB, hreq, h1]
  have hsome : (fields.find? (unsetRequiredB optF bldF st')).isSome :=
    List.find?_isSome.mpr ⟨g, hg, hunset⟩
  obtain ⟨f', hfind⟩ := Option.isSome_iff_exists.mp hsome
  refine ⟨f', ?_⟩
  rw [runBuild_err fields optF bldF st' f' hfind]

/-- Witness for `builder_build_moves_values` at the three-field
declaration `{ x: String, dir: Option<String>, args: Vec<String> }`
with `x` and `args` set. -/
theorem builder_build_moves_values_witness :
    ∃ kvs st',
      runBuild (expand_builder_build_fn [Fixtures.fx, Fixtures.fdir, Fixtures.fargs]
          [Fixtures.fdir] [Fixtures.fargs])
        [("x", Slot.optSlot (some 1)), ("dir", Slot.optSlot (none : Option Nat)),
          ("args", Slot.vecSlot [2, 3])] = (.ok kvs, st') ∧
      List.Forall₂ (fun f kv => kv.1 = f.ident ∧
          assignedVal [Fixtures.fdir] [Fixtures.fargs]
            [("x", Slot.optSlot (some 1)), ("dir", Slot.optSlot none),
              ("args", Slot.vecSlot [2, 3])] f kv.2)
        [Fixtures.fx, Fixtures.fdir, Fixtures.fargs] kvs ∧
      (∀ f ∈ [Fixtures.fx, Fixtures.fdir, Fixtures.fargs],
        lookupSlot st' f.ident
          = some (emptiedSlot [Fixtures.fdir] [Fixtures.fargs] f)) ∧
      (∀ g ∈ [Fixtures.fx, Fixtures.fdir, Fixtures.fargs],
        classify [Fixtures.fdir] [Fixtures.fargs] g = .requiredC →
        ∃ f' : Field, (runBuild (expand_builder_build_fn
            [Fixtures.fx, Fixtures.fdir, Fixtures.fargs]
            [Fixtures.fdir] [Fixtures.fargs]) st').1
          = .error (.errMsg ("value is not set: " ++ f'.ident))) := by
  refine builder_build_moves_values [Fixtures.fx, Fixtures.fdir, Fixtures.fargs]
    [Fixtures.fdir] [Fixtures.fargs]
    [("x", Slot.optSlot (some 1)), ("dir", Slot.optSlot (none : Option Nat)),
      ("args", Slot.vecSlot [2, 3])] (by decide) ?_
  intro f hf
  fin_cases hf
  · exact ⟨.singleV 1, 1, rfl, rfl⟩
  · exact ⟨.optionalV none, none, rfl, rfl⟩
  · exact ⟨.collectedV [2, 3], [2, 3], rfl, rfl⟩

end BuilderLib

namespace BuilderLib

theorem fetch_optional_ok_each : ∀ {fields l : List Field},
    fetch_optional_fields fields = .ok l →
    ∀ f ∈ fields, isOptionField f = .ok (isOptB f)
  | [], _, _, f, hf => absurd hf (by simp)
  | g :: rest, l, h, f, hf => by
      rw [fetch_optional_fields] at h
      cases hb : isOptionField g with
      | error e => rw [hb, exbind_error] at h; exact absurd h (by simp)
      | ok b =>
          rw [hb, exbind_ok] at h
          cases hr : fetch_optional_fields rest with
          | error e => rw [hr, exbind_error] at h; exact absurd h (by simp)
          | ok r =>
              rcases List.mem_cons.mp hf with hfg | hfrest
              · subst hfg
                rw [hb, isOptionField_ok hb]
              · exact fetch_optional_ok_each hr f hfrest

theorem fetch_optional_ok_path {fields l : List Field}
    (h : fetch_optional_fields fields = .ok l) :
    ∀ f ∈ fields, ∃ seg0 rest, f.ty = .path seg0 rest := by
  intro f hf
  have := fetch_optional_ok_each h f hf
  cases hty : f.ty with
  | path seg0 rest => exact ⟨seg0, rest, rfl⟩
  | otherTy t => rw [isOptionField, hty] at this; exact absurd this (by simp [throw])

/-- The `contains` tests of the expansion functions, for a field of the
declaration, reduce to the two classification predicates. -/
theorem contains_of_fetch {fields optF bldF : List Field} {f : Field}
    (ho : fetch_optional_fields fields = .ok optF)
    (hb : fetch_builder_fields fields = .ok (some bldF))
    (hf : f ∈ fields) :
    optF.contains f = isOptB f ∧ bldF.contains f = hasBuilderAttr f := by
  rw [fetch_optional_eq ho, (fetch_builder_eq hb).1]
  exact ⟨contains_filter hf, contains_filter hf⟩

/-- C2 (amended): for a field carrying a recognized
`builder(each = "...")` annotation, the classification is
`RepeatedCollection` only when the declared type's outer identifier is
not `Option`; when it is `Option`, the type-shape classification wins
in the setter and `build` synthesis (the field is synthesized as
`Optional`: a replace-with-`Some` setter and a `take()` assignment),
and only the constructor initializer still treats it as a collection
(`<ty>::new()`). -/
theorem builder_annotation_classification
    (fields optF bldF : List Field) (f : Field) (seg0 : Syn.Seg) (rest : List Syn.Seg)
    (ho : fetch_optional_fields fields = .ok optF)
    (hb : fetch_builder_fields fields = .ok (some bldF))
    (hf : f ∈ fields) (hattr : hasBuilderAttr f = true)
    (hty : f.ty = .path seg0 rest) :
    bldF.contains f = true ∧
    (seg0.ident ≠ "Option" →
      classify optF bldF f = .repeatedC ∧
      assignFor optF bldF f = .drainA f.ident ∧
      (∀ s, setterFor optF bldF f = .ok s → s.body = .push)) ∧
    (seg0.ident = "Option" →
      classify optF bldF f = .optionalC ∧
      assignFor optF bldF f = .takeA f.ident ∧
      (∀ s, setterFor optF bldF f = .ok s → s.body = .setSome) ∧
      (⟨f.ident, InitEntry.tyNew f.ty⟩ : InitDecl) ∈
        expand_builder_initializer fields bldF) := by
  obtain ⟨hoc, hbc⟩ := contains_of_fetch ho hb hf
  have hbc' : bldF.contains f = true := by rw [hbc]; exact hattr
  have hopt : isOptB f = (seg0.ident == "Option") := by
    unfold isOptB
    rw [hty]
  refine ⟨hbc', ?_, ?_⟩
  · intro hne
    have hoc' : optF.contains f = false := by
      rw [hoc, hopt]
      simp [hne]
    refine ⟨?_, ?_, ?_⟩
    · unfold classify
      rw [hoc', hbc']
      simp
    · unfold assignFor
      rw [hoc', hbc']
      simp
    · intro s hs
      unfold setterFor at hs
      rw [hoc', hbc'] at hs
      simp only [Bool.false_eq_true, if_false, if_true] at hs
      cases ha : get_attr_ident f with
      | error e => rw [ha, exbind_error] at hs; exact absurd hs (by simp)
      | ok nm =>
          rw [ha, exbind_ok] at hs
          cases hi : get_inner_type f with
          | error e => rw [hi, exbind_error] at hs; exact absurd hs (by simp)
          | ok t =>
              rw [hi, exbind_ok, expure_eq_ok] at hs
              cases hs
              rfl
  · intro heq
    have hoc' : optF.contains f = true := by
      rw [hoc, hopt]
      simp [heq]
    refine ⟨?_, ?_, ?_, ?_⟩
    · unfold classify
      rw [hoc']
      simp
    · unfold assignFor
      rw [hoc']
      simp
    · intro s hs
      unfold setterFor at hs
      rw [hoc'] at hs
      simp only [if_true] at hs
      cases hi : get_inner_type f with
      | error e => rw [hi, exbind_error] at hs; exact absurd hs (by simp)
      | ok t =>
          rw [hi, exbind_ok, expure_eq_ok] at hs
          cases hs
          rfl
    · unfold expand_builder_initializer
      have := List.mem_map_of_mem
        (fun g => if bldF.contains g then (⟨g.ident, .tyNew g.ty⟩ : InitDecl)
          else ⟨g.ident, .noneInit⟩) hf
      have hmemb : f ∈ bldF := List.elem_iff.mp hbc'
      simpa [hmemb] using this

/-- Witness for `builder_annotation_classification` at the
`Option`-typed annotated field `names` (and, through the first
conjunct of the non-`Option` branch, at nothing else). -/
theorem builder_annotation_classification_witness :
    classify [Fixtures.fnames] [Fixtures.fnames] Fixtures.fnames = .optionalC ∧
    assignFor [Fixtures.fnames] [Fixtures.fnames] Fixtures.fnames
      = .takeA "names" ∧
    (⟨"names", InitEntry.tyNew Fixtures.tyOptionString⟩ : InitDecl) ∈
      expand_builder_initializer [Fixtures.fnames] [Fixtures.fnames] := by
  have h := builder_annotation_classification [Fixtures.fnames] [Fixtures.fnames]
    [Fixtures.fnames] Fixtures.fnames
    ⟨"Option", .angle (.tyArg (.path ⟨"String", ⟨""⟩⟩ [])) []⟩ []
    rfl rfl (by simp) (by decide) rfl
  exact ⟨(h.2.2 rfl).1, (h.2.2 rfl).2.1, (h.2.2 rfl).2.2.2⟩

/-- C2 counterexample: the annotated field
`#[builder(each = "name")] names: Option<String>` is classified and
synthesized as `Optional` (replace-with-`Some` setter), not
`RepeatedCollection` — annotation-driven classification does not
dominate. -/
theorem builder_annotated_option_classified_optional_cex :
    fetch_optional_fields [Fixtures.fnames] = .ok [Fixtures.fnames] ∧
    fetch_builder_fields [Fixtures.fnames] = .ok (some [Fixtures.fnames]) ∧
    classify [Fixtures.fnames] [Fixtures.fnames] Fixtures.fnames
      = .optionalC ∧
    classify [Fixtures.fnames] [Fixtures.fnames] Fixtures.fnames
      ≠ .repeatedC ∧
    expand_builder_setters [Fixtures.fnames] [Fixtures.fnames] [Fixtures.fnames]
      = .ok [⟨"names", "names",
          .inner (.path ⟨"String", ⟨""⟩⟩ []), .setSome⟩] := by
  exact ⟨rfl, rfl, rfl, by decide, rfl⟩

end BuilderLib

namespace BuilderLib

/-- C3 (amended): the satellite builder type has exactly one field per
original field, in order; a field's storage can represent absence
through an `Option` head exactly when it is not classified
`RepeatedCollection` — required fields are wrapped in
`::std::option::Option<_>`, optional fields keep their declared
`Option` type, but annotated collection fields are stored at their
declared collection type (not `Option`-wrapped; they default to empty
instead).  In the simple variant, every emitted storage entry is
`Option`-wrapped. -/
theorem builder_satellite_storage
    (fields optF bldF : List Field)
    (ho : fetch_optional_fields fields = .ok optF)
    (hb : fetch_builder_fields fields = .ok (some bldF)) :
    List.Forall₂
      (fun f d => d.name = f.ident ∧
        (d.stored.isOptionHeaded = true ↔ classify optF bldF f ≠ .repeatedC))
      fields (expand_builder_fields fields optF bldF) ∧
    (∀ (sfields : List BuilderSimple.SField) (d : BuilderSimple.SFieldDecl),
      d ∈ BuilderSimple.extract_fields sfields →
      (∃ s, d.stored = .optOfIdent s) ∨
        ∃ g r, d.stored = .optOfPath g r) := by
  constructor
  · unfold expand_builder_fields
    rw [List.forall₂_map_right_iff]
    rw [List.forall₂_same]
    intro f hf
    obtain ⟨hoc, hbc⟩ := contains_of_fetch ho hb hf
    obtain ⟨seg0, rest, hty⟩ := fetch_optional_ok_path ho f hf
    have hopt : isOptB f = (seg0.ident == "Option") := by
      unfold isOptB; rw [hty]
    by_cases hO : optF.contains f = true
    · have hmO : f ∈ optF := List.elem_iff.mp hO
      have hcl : classify optF bldF f = .optionalC := by
        unfold classify; rw [hO]; simp
      refine ⟨by rw [if_pos (by simp [hmO])], ?_⟩
      have hOptHead : (StoredTy.raw f.ty).isOptionHeaded = true := by
        unfold StoredTy.isOptionHeaded
        rw [hty]
        rw [hO, hopt] at hoc
        exact hoc.symm
      rw [if_pos (by simp [hmO])]
      simp [hOptHead, hcl]
    · have hO' : optF.contains f = false := by simpa using hO
      have hmO : f ∉ optF := fun hc => by simp [List.elem_iff.mpr hc] at hO'; exact hO' hc
      by_cases hB : bldF.contains f = true
      · have hmB : f ∈ bldF := List.elem_iff.mp hB
        have hcl : classify optF bldF f = .repeatedC := by
          unfold classify; rw [hO', hB]; simp
        refine ⟨by rw [if_pos (by simp [hmB])], ?_⟩
        have hOptHead : (StoredTy.raw f.ty).isOptionHeaded = false := by
          unfold StoredTy.isOptionHeaded
          rw [hty]
          rw [hO', hopt] at hoc
          exact hoc.symm
        rw [if_pos (by simp [hmB])]
        simp [hOptHead, hcl]
      · have hB' : bldF.contains f = false := by simpa using hB
        have hmB : f ∉ bldF := fun hc => by simp [List.elem_iff.mpr hc] at hB'; exact hB' hc
        have hcl : classify optF bldF f = .requiredC := by
          unfold classify; rw [hO', hB']; simp
        refine ⟨by rw [if_neg (by simp [hmO, hmB])], ?_⟩
        rw [if_neg (by simp [hmO, hmB])]
        simp only [StoredTy.isOptionHeaded, hcl]
        simp
  · intro sfields d hd
    obtain ⟨f, hfmem, hfd⟩ := List.mem_filterMap.mp hd
    unfold BuilderSimple.handleOption at hfd
    rcases f with ⟨fid, fty⟩
    cases fid with
    | none => exact absurd hfd (by simp)
    | some ident =>
        cases fty with
        | otherTy t => exact absurd hfd (by simp)
        | path seg0 rest =>
            simp only at hfd
            by_cases hO : (seg0.ident == "Option") = true
            · rw [if_pos hO] at hfd
              cases hargs : seg0.arguments with
              | angle a0 arest =>
                  rw [hargs] at hfd
                  cases a0 with
                  | tyArg t =>
                      cases t with
                      | path iseg0 irest =>
                          simp only [Option.some.injEq] at hfd
                          exact Or.inl ⟨iseg0.ident, by rw [← hfd]⟩
                      | otherTy tk => exact absurd hfd (by simp)
                  | otherArg tk => exact absurd hfd (by simp)
              | noArgs => rw [hargs] at hfd; exact absurd hfd (by simp)
              | paren tk => rw [hargs] at hfd; exact absurd hfd (by simp)
            · rw [if_neg hO] at hfd
              simp only [Option.some.injEq] at hfd
              exact Or.inr ⟨seg0, rest, by rw [← hfd]⟩

/-- Witness for `builder_satellite_storage` at the declaration
`{ x: String, dir: Option<String>, args: Vec<String> }`. -/
theorem builder_satellite_storage_witness :
    List.Forall₂
      (fun f d => d.name = f.ident ∧
        ((StoredTy.isOptionHeaded d.stored) = true ↔
          classify [Fixtures.fdir] [Fixtures.fargs] f ≠ .repeatedC))
      [Fixtures.fx, Fixtures.fdir, Fixtures.fargs]
      (expand_builder_fields [Fixtures.fx, Fixtures.fdir, Fixtures.fargs]
        [Fixtures.fdir] [Fixtures.fargs]) :=
  (builder_satellite_storage [Fixtures.fx, Fixtures.fdir, Fixtures.fargs]
    [Fixtures.fdir] [Fixtures.fargs] rfl rfl).1

/-- C3 counterexample: the annotated field
`#[builder(each = "arg")] args: Vec<String>` is stored in the satellite
builder at its raw `Vec<String>` type, which is not `Option`-wrapped —
not every builder field is wrapped in optional storage. -/
theorem builder_repeated_storage_not_option_cex :
    fetch_optional_fields [Fixtures.fargs] = .ok [] ∧
    fetch_builder_fields [Fixtures.fargs] = .ok (some [Fixtures.fargs]) ∧
    expand_builder_fields [Fixtures.fargs] [] [Fixtures.fargs]
      = [⟨"args", .raw Fixtures.tyVecString⟩] ∧
    (StoredTy.raw Fixtures.tyVecString).isOptionHeaded = false := by
  exact ⟨rfl, rfl, rfl, by decide⟩

end BuilderLib

namespace BuilderLib

theorem assignFor_fieldName {optF bldF : List Field} {f : Field} :
    (assignFor optF bldF f).fieldName = f.ident := by
  unfold assignFor
  by_cases ho : optF.contains f = true <;> by_cases hb : bldF.contains f = true <;>
    simp_all [Assign.fieldName]

theorem classify_repeated_iff {optF bldF : List Field} {f : Field} :
    classify optF bldF f = .repeatedC ↔
      optF.contains f = false ∧ bldF.contains f = true := by
  unfold classify
  by_cases ho : optF.contains f = true <;> by_cases hb : bldF.contains f = true <;>
    simp_all

theorem runAssign_frame {α : Type} (a : Assign) (st : BState α) {n : String}
    (hn : n ≠ a.fieldName) :
    lookupSlot (runAssign a st).2 n = lookupSlot st n := by
  cases a with
  | takeA f =>
      simp only [Assign.fieldName] at hn
      cases h : lookupSlot st f with
      | none => simp [runAssign, h]
      | some s =>
          cases s with
          | optSlot o => simp [runAssign, h, lookupSlot_setSlot_ne hn]
          | vecSlot vs => simp [runAssign, h]
  | drainA f =>
      simp only [Assign.fieldName] at hn
      cases h : lookupSlot st f with
      | none => simp [runAssign, h]
      | some s =>
          cases s with
          | optSlot o => simp [runAssign, h]
          | vecSlot vs => simp [runAssign, h, lookupSlot_setSlot_ne hn]
  | takeUnwrapA f =>
      simp only [Assign.fieldName] at hn
      cases h : lookupSlot st f with
      | none => simp [runAssign, h]
      | some s =>
          cases s with
          | optSlot o =>
              cases o with
              | none => simp [runAssign, h]
              | some v => simp [runAssign, h, lookupSlot_setSlot_ne hn]
          | vecSlot vs => simp [runAssign, h]

/-- Repeated application of a push-bodied setter appends the arguments
in call order. -/
theorem foldl_push_setter {α : Type} (s : Setter) (n : String)
    (hbody : s.body = .push) (htgt : s.target = n) :
    ∀ (args : List α) (st : BState α) (vs : List α),
    lookupSlot st n = some (.vecSlot vs) →
    lookupSlot (args.foldl (fun acc a => applySetter s a acc) st) n
      = some (.vecSlot (vs ++ args))
  | [], st, vs, h => by simpa using h
  | a :: args, st, vs, h => by
      rw [List.foldl_cons]
      have hstep : applySetter s a st = setSlot st n (.vecSlot (vs ++ [a])) := by
        unfold applySetter
        rw [hbody, htgt, h]
      rw [hstep]
      have hlook : lookupSlot (setSlot st n (.vecSlot (vs ++ [a]))) n
          = some (.vecSlot (vs ++ [a])) := by
        rw [lookupSlot_setSlot_self, h]
        rfl
      have := foldl_push_setter s n hbody htgt args
        (setSlot st n (.vecSlot (vs ++ [a]))) (vs ++ [a]) hlook
      simpa using this

/-- A drained repeated field contributes its (possibly empty) stored
collection to the constructed value. -/
theorem runAssigns_drained_mem {α : Type} (optF bldF : List Field) :
    ∀ (fs : List Field) (st : BState α) (kvs : List (String × FVal α))
      (st' : BState α) (f : Field),
    (fs.map Field.ident).Nodup → f ∈ fs →
    classify optF bldF f = .repeatedC →
    lookupSlot st f.ident = some (.vecSlot []) →
    runAssigns (fs.map (assignFor optF bldF)) st = (.ok kvs, st') →
    (f.ident, FVal.collectedV []) ∈ kvs
  | [], _, _, _, f, _, hf, _, _, _ => absurd hf (by simp)
  | g :: rest, st, kvs, st', f, hN, hf, hcl, hsl, hrun => by
      rw [List.map_cons, runAssigns] at hrun
      rcases hra : runAssign (assignFor optF bldF g) st with ⟨res, st1⟩
      rw [hra] at hrun
      cases res with
      | error e => exact absurd hrun (by simp)
      | ok kv =>
          rcases hrr : runAssigns (rest.map (assignFor optF bldF)) st1 with ⟨res2, st2⟩
          simp only [hrr] at hrun
          cases res2 with
          | error e => exact absurd hrun (by simp)
          | ok kvs2 =>
              simp only [Prod.mk.injEq, Except.ok.injEq] at hrun
              obtain ⟨hkvs, _⟩ := hrun
              rcases List.mem_cons.mp hf with hfg | hfrest
              · subst hfg
                have ha : assignFor optF bldF f = .drainA f.ident := by
                  rw [assignFor_eq_classify, hcl]
                rw [ha] at hra
                simp only [runAssign, hsl, Prod.mk.injEq, Except.ok.injEq] at hra
                rw [← hkvs, ← hra.1]
                exact List.mem_cons_self _ _
              · have hne : f.ident ≠ g.ident := by
                  intro hc
                  have : g.ident ∉ rest.map Field.ident := (List.nodup_cons.mp hN).1
                  exact this (hc ▸ List.mem_map_of_mem Field.ident hfrest)
                have hst1 : lookupSlot st1 f.ident = some (.vecSlot []) := by
                  have hframe := runAssign_frame (assignFor optF bldF g) st
                    (n := f.ident) (by rw [assignFor_fieldName]; exact hne)
                  rw [hra] at hframe
                  simp only at hframe
                  rw [hframe]
                  exact hsl
                have := runAssigns_drained_mem optF bldF rest st1 kvs2 st2 f
                  (List.nodup_cons.mp hN).2 hfrest hcl hst1 hrr
                rw [← hkvs]
                exact List.mem_cons_of_mem _ this

end BuilderLib

namespace BuilderLib

/-- C5: for a field classified `RepeatedCollection`, the only setter
synthesized from it carries the singular name from the annotation and
appends one element per call (never replacing the collection): calling
it `N` times on an initially empty collection yields exactly the `N`
arguments in call order.  No `is_none` guard is emitted for such a
field, and a successful `build` from a state where the collection was
never pushed commits the empty collection for it. -/
theorem builder_repeated_setter_semantics {α : Type} [DecidableEq α]
    (fields optF bldF : List Field) (f : Field) (ss : List Setter)
    (hf : f ∈ fields) (hcl : classify optF bldF f = .repeatedC)
    (hss : expand_builder_setters fields optF bldF = .ok ss) :
    List.Forall₂ (fun g s => setterFor optF bldF g = .ok s) fields ss ∧
    (∀ s, setterFor optF bldF f = .ok s →
      s.body = .push ∧ s.target = f.ident ∧ get_attr_ident f = .ok s.name ∧
      (∀ (args : List α) (st : BState α),
        lookupSlot st f.ident = some (.vecSlot []) →
        lookupSlot (args.foldl (fun acc a => applySetter s a acc) st) f.ident
          = some (.vecSlot args))) ∧
    checkFor optF bldF f = none ∧
    (∀ (st : BState α) (kvs : List (String × FVal α)) (st' : BState α),
      (fields.map Field.ident).Nodup →
      lookupSlot st f.ident = some (.vecSlot []) →
      runBuild (expand_builder_build_fn fields optF bldF) st = (.ok kvs, st') →
      (f.ident, FVal.collectedV []) ∈ kvs) := by
  obtain ⟨hoc, hbc⟩ := classify_repeated_iff.mp hcl
  refine ⟨mapPanic_ok hss, ?_, ?_, ?_⟩
  · intro s hs
    unfold setterFor at hs
    rw [hoc, hbc] at hs
    simp only [Bool.false_eq_true, if_false, if_true] at hs
    cases ha : get_attr_ident f with
    | error e => rw [ha, exbind_error] at hs; exact absurd hs (by simp)
    | ok nm =>
        rw [ha, exbind_ok] at hs
        cases hi : get_inner_type f with
        | error e => rw [hi, exbind_error] at hs; exact absurd hs (by simp)
        | ok t =>
            rw [hi, exbind_ok, expure_eq_ok] at hs
            cases hs
            refine ⟨rfl, rfl, by simp [ha], ?_⟩
            intro args st hst
            exact foldl_push_setter _ _ rfl rfl args st [] hst
  · rw [checkFor_eq_classify, hcl]
  · intro st kvs st' hN hst hrun
    unfold runBuild at hrun
    cases hch : runChecks (expand_builder_build_fn fields optF bldF).checks st with
    | some msg => rw [hch] at hrun; exact absurd hrun (by simp)
    | none =>
        rw [hch] at hrun
        rcases hras : runAssigns (expand_builder_build_fn fields optF bldF).assigns st
          with ⟨res, st2⟩
        rw [hras] at hrun
        cases res with
        | error e => exact absurd hrun (by simp)
        | ok kvs2 =>
            simp only [Prod.mk.injEq, Except.ok.injEq] at hrun
            rw [← hrun.1]
            exact runAssigns_drained_mem optF bldF fields st kvs2 st2 f
              hN hf hcl hst hras

/-- Witness for `builder_repeated_setter_semantics`: pushing `1, 2, 3`
through the singular setter of `args: Vec<String>` yields exactly
`[1, 2, 3]`, and building without pushing commits the empty
collection. -/
theorem builder_repeated_setter_semantics_witness :
    lookupSlot (([1, 2, 3] : List Nat).foldl
        (fun acc a => applySetter
          ⟨"arg", "args", .inner (.path ⟨"String", ⟨""⟩⟩ []), .push⟩ a acc)
        [("args", Slot.vecSlot ([] : List Nat))]) "args"
      = some (.vecSlot [1, 2, 3]) ∧
    ("args", FVal.collectedV ([] : List Nat)) ∈
      [("args", FVal.collectedV ([] : List Nat))] := by
  have h := builder_repeated_setter_semantics (α := Nat) [Fixtures.fargs] []
    [Fixtures.fargs] Fixtures.fargs
    [⟨"arg", "args", .inner (.path ⟨"String", ⟨""⟩⟩ []), .push⟩]
    (by simp) (by decide) rfl
  refine ⟨?_, ?_⟩
  · exact (h.2.1 _ rfl).2.2.2 [1, 2, 3] [("args", Slot.vecSlot [])] rfl
  · exact h.2.2.2 [("args", Slot.vecSlot [])]
      [("args", FVal.collectedV [])] [("args", Slot.vecSlot [])]
      (by decide) rfl rfl

end BuilderLib

namespace BuilderLib

theorem attrsAllOk_exists_ok : ∀ {l : List Syn.Attr},
    (∀ b ∈ l, ∃ c, builderAttrOk b = .ok c) → ∃ c, attrsAllOk l = .ok c
  | [], _ => ⟨true, rfl⟩
  | a :: rest, h => by
      obtain ⟨c, hc⟩ := h a (List.mem_cons_self a rest)
      rw [attrsAllOk, hc, exbind_ok]
      cases c with
      | false => exact ⟨false, rfl⟩
      | true =>
          simp only [if_true]
          exact attrsAllOk_exists_ok (fun b hb => h b (List.mem_cons_of_mem a hb))

theorem filterAttrsOk_exists : ∀ {l : List Field},
    (∀ g ∈ l, ∃ c, attrsAllOk g.attrs = .ok c) → ∃ r, filterAttrsOk l = .ok r
  | [], _ => ⟨[], rfl⟩
  | g :: rest, h => by
      obtain ⟨c, hc⟩ := h g (List.mem_cons_self g rest)
      obtain ⟨r, hr⟩ := filterAttrsOk_exists (fun x hx => h x (List.mem_cons_of_mem g hx))
      rw [filterAttrsOk, hc, exbind_ok, hr, exbind_ok]
      exact ⟨if c then g :: r else r, rfl⟩

theorem filterAttrsOk_lt : ∀ {l r : List Field},
    filterAttrsOk l = .ok r → (∃ f ∈ l, attrsAllOk f.attrs = .ok false) →
    r.length < l.length
  | [], _, _, hbad => by simp at hbad
  | g :: rest, r, h, hbad => by
      rw [filterAttrsOk] at h
      cases hb : attrsAllOk g.attrs with
      | error e => rw [hb, exbind_error] at h; exact absurd h (by simp)
      | ok b =>
          rw [hb, exbind_ok] at h
          cases hr : filterAttrsOk rest with
          | error e => rw [hr, exbind_error] at h; exact absurd h (by simp)
          | ok r0 =>
              rw [hr, exbind_ok, expure_eq_ok] at h
              cases h
              have hle := filterAttrsOk_length hr
              cases b with
              | false => simp only [Bool.false_eq_true, if_false, List.length_cons]; omega
              | true =>
                  obtain ⟨f, hf, hfbad⟩ := hbad
                  rcases List.mem_cons.mp hf with hfg | hfrest
                  · subst hfg
                    rw [hb] at hfbad
                    exact absurd hfbad (by simp)
                  · have := filterAttrsOk_lt hr ⟨f, hfrest, hfbad⟩
                    simp only [if_true, List.length_cons]
                    omega

end BuilderLib

namespace DebugLib

theorem collect_error_of_bad : ∀ {fields : List DField} {f : DField} {a : Syn.Attr},
    f ∈ fields → f.attrs.find? (fun x => x.isIdent "debug") = some a →
    (∀ i l, a.meta ≠ some (.nameValue i l)) →
    ∃ e, collect_fields_format fields = .error e
  | [], f, _, hf, _, _ => absurd hf (by simp)
  | g :: rest, f, a, hf, hfa, hbad => by
      rcases List.mem_cons.mp hf with hfg | hfrest
      · subst hfg
        cases hm : a.meta with
        | none => exact ⟨.parseErr, by simp only [collect_fields_format, hfa, hm]⟩
        | some m =>
            cases m with
            | word i =>
                exact ⟨.nameValueFormat, by simp only [collect_fields_format, hfa, hm]⟩
            | list n0 rest2 =>
                exact ⟨.nameValueFormat, by simp only [collect_fields_format, hfa, hm]⟩
            | nameValue i l => exact absurd hm (by simpa using hbad i l)
      · obtain ⟨e, he⟩ := collect_error_of_bad hfrest hfa hbad
        cases hg : g.attrs.find? (fun x => x.isIdent "debug") with
        | none => exact ⟨e, by rw [collect_fields_format, hg]; exact he⟩
        | some b =>
            cases hm : b.meta with
            | none => exact ⟨.parseErr, by simp only [collect_fields_format, hg, hm]⟩
            | some m =>
                cases m with
                | word i =>
                    exact ⟨.nameValueFormat,
                      by simp only [collect_fields_format, hg, hm]⟩
                | list n0 rest2 =>
                    exact ⟨.nameValueFormat,
                      by simp only [collect_fields_format, hg, hm]⟩
                | nameValue i l =>
                    refine ⟨e, ?_⟩
                    simp only [collect_fields_format, hg, hm, he]
                    rfl

end DebugLib

namespace BuilderLib

/-- C4 (amended): a `builder(<key> = "...")` annotation with a
misspelled key is a compile-time diagnostic (`compile_error!`) and never
a silently-degraded fragment, provided every builder-annotation payload
on the declaration parses to the list/name-value shape; a `debug` field
annotation whose payload is not a name=value pair is likewise a
compile-time diagnostic.  (Payload shapes outside the list/name-value
form make the builder generator panic via `unreachable!` rather than
emit a diagnostic, and an unparseable payload is silently accepted —
see the counterexample.) -/
theorem malformed_payload_diagnostics
    (fields optF : List Field) (f : Field) (a : Syn.Attr)
    (ho : fetch_optional_fields fields = .ok optF)
    (hclean : ∀ g ∈ fields, ∀ b ∈ g.attrs, ∃ c, builderAttrOk b = .ok c)
    (hf : f ∈ fields) (hfb : hasBuilderAttr f = true)
    (ha : a ∈ f.attrs) (hbad : builderAttrOk a = .ok false)
    (dfields : List DebugLib.DField) (df : DebugLib.DField) (da : Syn.Attr)
    (hdf : df ∈ dfields)
    (hda : df.attrs.find? (fun x => x.isIdent "debug") = some da)
    (hdm : ∀ i l, da.meta ≠ some (.nameValue i l)) :
    fetch_builder_fields fields = .ok none ∧
    (∀ n, derive ⟨n, .structD (.named fields)⟩
      = .ok (.compileErr "missing or unrecognized attribute in `builder`")) ∧
    (∃ e, DebugLib.collect_fields_format dfields = .error e) := by
  have hfmem : f ∈ fields.filter hasBuilderAttr := List.mem_filter.mpr ⟨hf, hfb⟩
  have hfalse : attrsAllOk f.attrs = .ok false :=
    attrsAllOk_ok_false (hclean f hf) ⟨a, ha, hbad⟩
  obtain ⟨r, hr⟩ := filterAttrsOk_exists
    (fun g hg => attrsAllOk_exists_ok (hclean g (List.mem_filter.mp hg).1))
  have hlt : r.length < (fields.filter hasBuilderAttr).length :=
    filterAttrsOk_lt hr ⟨f, hfmem, hfalse⟩
  have hnone : fetch_builder_fields fields = .ok none := by
    rw [fetch_builder_fields, hr, exbind_ok]
    rw [if_pos (by omega)]
    rfl
  refine ⟨hnone, ?_, DebugLib.collect_error_of_bad hdf hda hdm⟩
  intro n
  rw [derive.eq_def]
  simp only
  rw [ho, exbind_ok, hnone, exbind_ok]
  rfl

/-- Witness for `malformed_payload_diagnostics` at the misspelled
`builder(eachh = "x")` field and a field-level `debug(bound = ...)`
list payload. -/
theorem malformed_payload_diagnostics_witness :
    fetch_builder_fields [Fixtures.fbadKey] = .ok none ∧
    (∀ n, derive ⟨n, .structD (.named [Fixtures.fbadKey])⟩
      = .ok (.compileErr "missing or unrecognized attribute in `builder`")) ∧
    (∃ e, DebugLib.collect_fields_format
      [⟨"w", Fixtures.tyString, [Fixtures.debugListAttr]⟩] = .error e) := by
  refine malformed_payload_diagnostics [Fixtures.fbadKey] [] Fixtures.fbadKey
    Fixtures.eachhAttr rfl ?_ (by simp) (by decide) (by simp [Fixtures.fbadKey])
    rfl
    [⟨"w", Fixtures.tyString, [Fixtures.debugListAttr]⟩]
    ⟨"w", Fixtures.tyString, [Fixtures.debugListAttr]⟩
    Fixtures.debugListAttr (by simp) rfl
    (by intro i l h; simp [Fixtures.debugListAttr] at h)
  intro g hg b hb
  simp only [List.mem_singleton] at hg
  subst hg
  simp only [Fixtures.fbadKey, Fixtures.eachhAttr, List.mem_singleton] at hb
  subst hb
  exact ⟨false, rfl⟩

/-- C4 counterexample: a `builder` annotation whose payload parses to
`Meta::NameValue` makes the generator panic (`unreachable!`) instead of
emitting a diagnostic token sequence, and a `builder` annotation whose
payload fails to parse at all is silently accepted as a repeated-field
marker — not every malformed payload is a compile-time diagnostic. -/
theorem builder_malformed_payload_panics_cex :
    fetch_builder_fields [Fixtures.fnv] = .error .unreachableE ∧
    derive ⟨"S", .structD (.named [Fixtures.fnv])⟩ = .error .unreachableE ∧
    fetch_builder_fields [Fixtures.fpe] = .ok (some [Fixtures.fpe]) := by
  exact ⟨rfl, rfl, rfl⟩

end BuilderLib

namespace DebugLib

/-- C6 (amended): the debug derive pushes a `Debug` bound onto a type
parameter exactly when the parameter appears in no `PhantomData<..>`
argument, is not the root of an associated-type reference, and no
custom-bound declaration annotation is present (so a parameter used
only inside `PhantomData` gets no bound; one used as a plain field
type, under the other two conditions, does — but appearing in any
`PhantomData` argument suppresses the bound even for a parameter also
used plainly).  A custom bound suppresses the per-parameter inference,
but the associated-type where-clause predicates are still pushed
unconditionally, and the custom predicate is added alongside them. -/
theorem debug_bound_inference
    (parseWP : String → Option Syn.QTokens) (n : String) (gens : List String)
    (attrs : List Syn.Attr) (fields : List DField)
    (m : List (String × Syn.Lit))
    (hm : collect_fields_format fields = .ok m) :
    ∃ out, derive parseWP ⟨n, gens, attrs, .structD (.named fields)⟩
        = .ok (.implOut out) ∧
      (∀ p ∈ gens,
        ((p, true) ∈ out.generics.paramsWithBound ↔
          (p ∉ collect_phantom_data fields ∧
            (collect_associated_types fields).find? (fun q => q.1 == p) = none ∧
            collect_custom_bound_attr parseWP attrs = none))) ∧
      (∀ q ∈ collect_associated_types fields,
        WherePred.debugBound q.2 ∈ out.generics.wherePreds) ∧
      (∀ c, collect_custom_bound_attr parseWP attrs = some c →
        WherePred.custom c ∈ out.generics.wherePreds) := by
  refine ⟨⟨n, format_debug_fields fields m,
    ⟨gens.map (fun p => (p, boundPushed (collect_phantom_data fields)
        (collect_associated_types fields)
        (collect_custom_bound_attr parseWP attrs) p)),
      (collect_associated_types fields).map (fun q => WherePred.debugBound q.2) ++
        (match collect_custom_bound_attr parseWP attrs with
          | some p => [WherePred.custom p]
          | none => [])⟩⟩, ?_, ?_, ?_, ?_⟩
  · rw [derive.eq_def]
    simp only [hm]
  · intro p hp
    simp only [List.mem_map, Prod.mk.injEq]
    constructor
    · rintro ⟨q, hq, hqp, hqb⟩
      subst hqp
      unfold boundPushed at hqb
      simp only [Bool.and_eq_true, Bool.not_eq_true', Option.isNone_iff_eq_none] at hqb
      refine ⟨?_, hqb.1.2, hqb.2⟩
      intro hc
      have h' : (collect_phantom_data fields).contains q = true := List.elem_iff.mpr hc
      rw [hqb.1.1] at h'
      exact absurd h' (by simp)
    · rintro ⟨h1, h2, h3⟩
      refine ⟨p, hp, rfl, ?_⟩
      unfold boundPushed
      simp [h1, h2, h3]
  · intro q hq
    exact List.mem_append_left _ (List.mem_map_of_mem _ hq)
  · intro c hc
    rw [hc]
    exact List.mem_append_right _ (by simp)

/-- Witness for `debug_bound_inference` at the declaration
`struct S<T> { a: PhantomData<T>, b: T }` with no custom bound. -/
theorem debug_bound_inference_witness :
    ∃ out, derive (fun _ => none)
        ⟨"S", ["T"], [], .structD (.named
          [⟨"a", Fixtures.tyPhantomT, []⟩, ⟨"b", Fixtures.tyT, []⟩])⟩
        = .ok (.implOut out) ∧
      (∀ p ∈ ["T"],
        ((p, true) ∈ out.generics.paramsWithBound ↔
          (p ∉ collect_phantom_data
              [⟨"a", Fixtures.tyPhantomT, []⟩, ⟨"b", Fixtures.tyT, []⟩] ∧
            (collect_associated_types
              [⟨"a", Fixtures.tyPhantomT, []⟩, ⟨"b", Fixtures.tyT, []⟩]).find?
                (fun q => q.1 == p) = none ∧
            collect_custom_bound_attr (fun _ => none) [] = none))) ∧
      (∀ q ∈ collect_associated_types
          [⟨"a", Fixtures.tyPhantomT, []⟩, ⟨"b", Fixtures.tyT, []⟩],
        WherePred.debugBound q.2 ∈ out.generics.wherePreds) ∧
      (∀ c, collect_custom_bound_attr (fun _ => none) [] = some c →
        WherePred.custom c ∈ out.generics.wherePreds) :=
  debug_bound_inference (fun _ => none) "S" ["T"] []
    [⟨"a", Fixtures.tyPhantomT, []⟩, ⟨"b", Fixtures.tyT, []⟩] [] rfl

/-- C6 counterexample: with an explicit custom-bound annotation present,
the associated-type `Debug` predicate is still automatically inferred
and pushed (the custom bound does not fully replace inference); and a
parameter used as a plain field type receives no bound when it also
appears inside a `PhantomData` argument. -/
theorem debug_bound_inference_cex :
    derive Fixtures.parseWPid
        ⟨"Wrapper", ["T"], [Fixtures.boundAttr],
          .structD (.named [⟨"field", Fixtures.tyVecTValue, []⟩])⟩
      = .ok (.implOut ⟨"Wrapper", [.plainE "field"],
          ⟨[("T", false)],
            [.debugBound Fixtures.innerTValue,
              .custom ⟨"T::Value: Debug"⟩]⟩⟩) ∧
    collect_custom_bound_attr Fixtures.parseWPid [Fixtures.boundAttr]
      = some ⟨"T::Value: Debug"⟩ ∧
    derive (fun _ => none)
        ⟨"S", ["T"], [], .structD (.named
          [⟨"a", Fixtures.tyPhantomT, []⟩, ⟨"b", Fixtures.tyT, []⟩])⟩
      = .ok (.implOut ⟨"S", [.plainE "a", .plainE "b"],
          ⟨[("T", false)], []⟩⟩) := by
  exact ⟨rfl, rfl, rfl⟩

end DebugLib

namespace DebugLib

theorem collect_keys : ∀ {fields : List DField} {m : List (String × Syn.Lit)},
    collect_fields_format fields = .ok m →
    ∀ kv ∈ m, kv.1 ∈ fields.map DField.ident
  | [], m, hm, kv, hkv => by
      simp only [collect_fields_format, Except.ok.injEq] at hm
      rw [← hm] at hkv
      exact absurd hkv (by simp)
  | g :: rest, m, hm, kv, hkv => by
      rw [collect_fields_format] at hm
      cases hg : g.attrs.find? (fun a => a.isIdent "debug") with
      | none =>
          simp only [hg] at hm
          have := collect_keys hm kv hkv
          simp only [List.map_cons, List.mem_cons]
          exact Or.inr this
      | some attr =>
          simp only [hg] at hm
          cases hma : attr.meta with
          | none => rw [hma] at hm; exact absurd hm (by simp)
          | some mt =>
              cases mt with
              | word i => rw [hma] at hm; exact absurd hm (by simp)
              | list n0 r2 => rw [hma] at hm; exact absurd hm (by simp)
              | nameValue i l =>
                  simp only [hma] at hm
                  cases hr : collect_fields_format rest with
                  | error e =>
                      rw [hr, BuilderLib.exbind_error] at hm
                      exact absurd hm (by simp)
                  | ok m0 =>
                      rw [hr, BuilderLib.exbind_ok, BuilderLib.expure_eq_ok] at hm
                      cases hm
                      rcases List.mem_cons.mp hkv with hkvh | hkvt
                      · subst hkvh
                        simp
                      · have := collect_keys hr kv hkvt
                        simp only [List.map_cons, List.mem_cons]
                        exact Or.inr this

theorem collect_lookup : ∀ {fields : List DField} {m : List (String × Syn.Lit)},
    collect_fields_format fields = .ok m →
    (fields.map DField.ident).Nodup →
    ∀ f ∈ fields,
      m.find? (fun p => p.1 == f.ident)
        = (debugAttrLit f).map (fun l => (f.ident, l))
  | [], _, _, _, f, hf => absurd hf (by simp)
  | g :: rest, m, hm, hN, f, hf => by
      rw [collect_fields_format] at hm
      have hNg : g.ident ∉ rest.map DField.ident := (List.nodup_cons.mp hN).1
      have hNr : (rest.map DField.ident).Nodup := (List.nodup_cons.mp hN).2
      cases hg : g.attrs.find? (fun a => a.isIdent "debug") with
      | none =>
          simp only [hg] at hm
          rcases List.mem_cons.mp hf with hfg | hfrest
          · subst hfg
            have hlit : debugAttrLit f = none := by
              unfold debugAttrLit
              rw [hg]
            rw [hlit]
            simp only [Option.map_none']
            rw [List.find?_eq_none]
            intro kv hkv
            have := collect_keys hm kv hkv
            simp only [beq_iff_eq]
            intro hc
            rw [hc] at this
            exact hNg this
          · exact collect_lookup hm hNr f hfrest
      | some attr =>
          simp only [hg] at hm
          cases hma : attr.meta with
          | none => rw [hma] at hm; exact absurd hm (by simp)
          | some mt =>
              cases mt with
              | word i => rw [hma] at hm; exact absurd hm (by simp)
              | list n0 r2 => rw [hma] at hm; exact absurd hm (by simp)
              | nameValue i l =>
                  simp only [hma] at hm
                  cases hr : collect_fields_format rest with
                  | error e =>
                      rw [hr, BuilderLib.exbind_error] at hm
                      exact absurd hm (by simp)
                  | ok m0 =>
                      rw [hr, BuilderLib.exbind_ok, BuilderLib.expure_eq_ok] at hm
                      cases hm
                      rcases List.mem_cons.mp hf with hfg | hfrest
                      · subst hfg
                        have hlit : debugAttrLit f = some l := by
                          simp only [debugAttrLit, hg, hma]
                        rw [hlit]
                        simp [List.find?_cons]
                      · have hne : (g.ident == f.ident) = false := by
                          simp only [beq_eq_false_iff_ne, ne_eq]
                          intro hc
                          rw [hc] at hNg
                          exact hNg (List.mem_map_of_mem DField.ident hfrest)
                        rw [List.find?_cons]
                        simp only [hne]
                        exact collect_lookup hr hNr f hfrest

/-- C7: the generated `Debug` impl announces the declared type name to
`debug_struct` and emits exactly one formatting call per field, in
declaration order with no reordering or deduplication; a field with a
`debug = "<fmt>"` annotation renders through `format_args!` with that
format string applied to the field's value, all others through the
default rendering. -/
theorem debug_field_output
    (parseWP : String → Option Syn.QTokens) (n : String) (gens : List String)
    (attrs : List Syn.Attr) (fields : List DField)
    (m : List (String × Syn.Lit))
    (hN : (fields.map DField.ident).Nodup)
    (hm : collect_fields_format fields = .ok m) :
    ∃ out, derive parseWP ⟨n, gens, attrs, .structD (.named fields)⟩
        = .ok (.implOut out) ∧
      out.typeName = n ∧
      out.entries.length = fields.length ∧
      List.Forall₂ (fun f e =>
        e = (match debugAttrLit f with
              | some l => DebugEntry.formattedE f.ident l
              | none => DebugEntry.plainE f.ident)) fields out.entries := by
  refine ⟨⟨n, format_debug_fields fields m,
    ⟨gens.map (fun p => (p, boundPushed (collect_phantom_data fields)
        (collect_associated_types fields)
        (collect_custom_bound_attr parseWP attrs) p)),
      (collect_associated_types fields).map (fun q => WherePred.debugBound q.2) ++
        (match collect_custom_bound_attr parseWP attrs with
          | some p => [WherePred.custom p]
          | none => [])⟩⟩, ?_, rfl, ?_, ?_⟩
  · rw [derive.eq_def]
    simp only [hm]
  · simp [format_debug_fields]
  · unfold format_debug_fields
    rw [List.forall₂_map_right_iff]
    rw [List.forall₂_same]
    intro f hf
    rw [collect_lookup hm hN f hf]
    cases debugAttrLit f with
    | none => rfl
    | some l => rfl

/-- Witness for `debug_field_output` at the declaration
`struct Foo { name: String, bitmask: String }` with
`#[debug = "0b{:08b}"]` on `bitmask`. -/
theorem debug_field_output_witness :
    ∃ out, derive (fun _ => none)
        ⟨"Foo", [], [], .structD (.named
          [⟨"name", Fixtures.tyString, []⟩,
            ⟨"bitmask", Fixtures.tyString, [Fixtures.debugFmtAttr]⟩])⟩
        = .ok (.implOut out) ∧
      out.typeName = "Foo" ∧
      out.entries.length = 2 ∧
      List.Forall₂ (fun f e =>
        e = (match debugAttrLit f with
              | some l => DebugEntry.formattedE f.ident l
              | none => DebugEntry.plainE f.ident))
        [⟨"name", Fixtures.tyString, []⟩,
          ⟨"bitmask", Fixtures.tyString, [Fixtures.debugFmtAttr]⟩] out.entries :=
  debug_field_output (fun _ => none) "Foo" [] []
    [⟨"name", Fixtures.tyString, []⟩,
      ⟨"bitmask", Fixtures.tyString, [Fixtures.debugFmtAttr]⟩]
    [("bitmask", .str "0b{:08b}")] (by decide) rfl

end DebugLib

namespace BuilderSimple

/-- C8 (amended): in the simplest variant, enum and union declarations
yield an empty fragment (a no-op) rather than failing the compilation;
but a struct with positional or zero fields is not given an empty
fragment — the generator still emits the (degenerate) builder skeleton
for it. -/
theorem simple_builder_shape_handling (n : String) :
    build ⟨n, .enumD⟩ = .emptyFrag ∧
    build ⟨n, .unionD⟩ = .emptyFrag ∧
    (∀ fields : List SField,
      build ⟨n, .structD fields⟩
        = .skeleton (extract_fields fields) (extract_builder_fields fields)
            (extract_setter fields) ∧
      build ⟨n, .structD fields⟩ ≠ .emptyFrag) := by
  refine ⟨rfl, rfl, fun fields => ⟨rfl, by simp [build]⟩⟩

/-- C8 counterexample: a tuple struct (one positional field) does not
yield an empty fragment — the simple variant emits a degenerate
skeleton for it. -/
theorem simple_builder_positional_not_empty_cex :
    build ⟨"Pair", .structD [⟨none, Fixtures.tyString⟩]⟩
      = .skeleton [] [] [] ∧
    (SimpleOut.skeleton [] [] []) ≠ .emptyFrag := by
  exact ⟨rfl, by simp⟩

end BuilderSimple

namespace SeqLib

theorem seq_leaf_error (ts : List Tok) (k : Nat)
    (hp : seqParse ts = .error ⟨k⟩) (hs : specFirstBad ts = some k) :
    ((∃ r, seqParse ts = .ok r) ↔ specFirstBad ts = none) ∧
    (∀ e, seqParse ts = .error e → specFirstBad ts = some e.pos) ∧
    (∀ r, seqParse ts = .ok r →
      ts = [.identT r.name, .kwIn, .litIntT r.start, .dotdot, .litIntT r.stop,
        .exprT r.body] ∧ seq ts = .emptyOut) := by
  refine ⟨⟨?_, ?_⟩, ?_, ?_⟩
  · rintro ⟨r, hr⟩
    rw [hp] at hr
    exact absurd hr (by simp)
  · intro h
    rw [hs] at h
    exact absurd h (by simp)
  · intro e he
    rw [hp] at he
    cases he
    rw [hs]
  · intro r hr
    rw [hp] at hr
    exact absurd hr (by simp)

theorem seq_leaf_ok (ts : List Tok) (r0 : Seq)
    (hp : seqParse ts = .ok r0) (hs : specFirstBad ts = none)
    (hshape : ts = [.identT r0.name, .kwIn, .litIntT r0.start, .dotdot,
      .litIntT r0.stop, .exprT r0.body]) :
    ((∃ r, seqParse ts = .ok r) ↔ specFirstBad ts = none) ∧
    (∀ e, seqParse ts = .error e → specFirstBad ts = some e.pos) ∧
    (∀ r, seqParse ts = .ok r →
      ts = [.identT r.name, .kwIn, .litIntT r.start, .dotdot, .litIntT r.stop,
        .exprT r.body] ∧ seq ts = .emptyOut) := by
  refine ⟨⟨fun _ => hs, fun _ => ⟨r0, hp⟩⟩, ?_, ?_⟩
  · intro e he
    rw [hp] at he
    exact absurd he (by simp)
  · intro r hr
    have hr0 : r = r0 := by
      rw [hp] at hr
      cases hr
      rfl
    subst hr0
    refine ⟨hshape, ?_⟩
    unfold seq
    rw [hp]

/-- C9: `seq!` parsing succeeds exactly when the input is an
identifier, the keyword `in`, an integer literal, the range token, an
integer literal and one expression; otherwise it fails with a syntax
error at the first grammar position whose token is missing or does not
match.  A successful parse yields the loop variable name, start, end
and body, and the macro emits the empty fragment (no expansion). -/
theorem seq_parse_grammar (ts : List Tok) :
    ((∃ r, seqParse ts = .ok r) ↔ specFirstBad ts = none) ∧
    (∀ e, seqParse ts = .error e → specFirstBad ts = some e.pos) ∧
    (∀ r, seqParse ts = .ok r →
      ts = [.identT r.name, .kwIn, .litIntT r.start, .dotdot, .litIntT r.stop,
        .exprT r.body] ∧ seq ts = .emptyOut) := by
  rcases ts with _ | ⟨t0, ts⟩
  · exact seq_leaf_error [] 0 rfl rfl
  rcases t0 with s | _ | n0 | _ | b0
  case kwIn => exact seq_leaf_error _ 0 rfl rfl
  case litIntT => exact seq_leaf_error _ 0 rfl rfl
  case dotdot => exact seq_leaf_error _ 0 rfl rfl
  case exprT => exact seq_leaf_error _ 0 rfl rfl
  case identT =>
  rcases ts with _ | ⟨t1, ts⟩
  · exact seq_leaf_error _ 1 rfl rfl
  rcases t1 with s1 | _ | n1 | _ | b1
  case identT => exact seq_leaf_error _ 1 rfl rfl
  case litIntT => exact seq_leaf_error _ 1 rfl rfl
  case dotdot => exact seq_leaf_error _ 1 rfl rfl
  case exprT => exact seq_leaf_error _ 1 rfl rfl
  case kwIn =>
  rcases ts with _ | ⟨t2, ts⟩
  · exact seq_leaf_error _ 2 rfl rfl
  rcases t2 with s2 | _ | a | _ | b2
  case identT => exact seq_leaf_error _ 2 rfl rfl
  case kwIn => exact seq_leaf_error _ 2 rfl rfl
  case dotdot => exact seq_leaf_error _ 2 rfl rfl
  case exprT => exact seq_leaf_error _ 2 rfl rfl
  case litIntT =>
  rcases ts with _ | ⟨t3, ts⟩
  · exact seq_leaf_error _ 3 rfl rfl
  rcases t3 with s3 | _ | n3 | _ | b3
  case identT => exact seq_leaf_error _ 3 rfl rfl
  case kwIn => exact seq_leaf_error _ 3 rfl rfl
  case litIntT => exact seq_leaf_error _ 3 rfl rfl
  case exprT => exact seq_leaf_error _ 3 rfl rfl
  case dotdot =>
  rcases ts with _ | ⟨t4, ts⟩
  · exact seq_leaf_error _ 4 rfl rfl
  rcases t4 with s4 | _ | b | _ | b4
  case identT => exact seq_leaf_error _ 4 rfl rfl
  case kwIn => exact seq_leaf_error _ 4 rfl rfl
  case dotdot => exact seq_leaf_error _ 4 rfl rfl
  case exprT => exact seq_leaf_error _ 4 rfl rfl
  case litIntT =>
  rcases ts with _ | ⟨t5, ts⟩
  · exact seq_leaf_error _ 5 rfl rfl
  rcases t5 with s5 | _ | n5 | _ | e
  case identT => exact seq_leaf_error _ 5 rfl rfl
  case kwIn => exact seq_leaf_error _ 5 rfl rfl
  case litIntT => exact seq_leaf_error _ 5 rfl rfl
  case dotdot => exact seq_leaf_error _ 5 rfl rfl
  case exprT =>
  rcases ts with _ | ⟨t6, ts⟩
  · exact seq_leaf_ok _ ⟨s, a, b, e⟩ rfl rfl rfl
  · exact seq_leaf_error _ 6 rfl rfl

/-- Witness for `seq_parse_grammar` at the invocation
`seq! { n in 0..5 <expr> }`. -/
theorem seq_parse_grammar_witness :
    seqParse [.identT "n", .kwIn, .litIntT 0, .dotdot, .litIntT 5,
        .exprT ⟨"body"⟩] = .ok ⟨"n", 0, 5, ⟨"body"⟩⟩ ∧
    seq [.identT "n", .kwIn, .litIntT 0, .dotdot, .litIntT 5, .exprT ⟨"body"⟩]
      = .emptyOut ∧
    specFirstBad [.identT "n", .identT "x"] = some 1 := by
  have h := (seq_parse_grammar
    [.identT "n", .kwIn, .litIntT 0, .dotdot, .litIntT 5, .exprT ⟨"body"⟩]).2.2
    ⟨"n", 0, 5, ⟨"body"⟩⟩ rfl
  have h2 := (seq_parse_grammar [.identT "n", .identT "x"]).2.1 ⟨1⟩ rfl
  exact ⟨rfl, h.2, h2⟩

end SeqLib

namespace BuilderSimple

/-- Witness for `simple_builder_shape_handling` at the name `Cmd`. -/
theorem simple_builder_shape_handling_witness :
    build ⟨"Cmd", .enumD⟩ = .emptyFrag ∧
    build ⟨"Cmd", .structD [Fixtures.sfx]⟩ ≠ .emptyFrag :=
  ⟨(simple_builder_shape_handling "Cmd").1,
    ((simple_builder_shape_handling "Cmd").2.2 [Fixtures.sfx]).2⟩

end BuilderSimple
